import Mathlib

/-!
Verification development for the concierge-acpi remote-host control service.

Each Python component relevant to the checked properties is shallowly embedded
as executable Lean definitions:

* `persistent_dictionary.py` → `Pd` namespace (ordered store with tagged eviction)
* `request_handler.py` / `request_validator.py` → `Handler` namespace (403/500 decision)
* `task_executor_helper.py` → `Wol` and `Jp` namespaces (magic packet, JSON placeholders)
* `websocket.py` → `Ws` namespace (frame codec, HMAC token issue/verify)
* `task_executor.py` / `task_scheduler.py` → `Tasks` namespace (task record updates,
  plan interpreter conditions)

Python strings are modelled as `List Char` (Unicode scalar values), bytes as
`List Nat` with values < 256 where relevant, dictionaries as association lists
in insertion order, mutation as explicit state passing, and raised exceptions
as `Except` / explicit error components.
-/

/- ===================================================================
   Persistent ordered dictionary
   (src/concierge_acpi/persistent_dictionary.py)
   =================================================================== -/

namespace Pd

/-- State of `OptionallyPersistentOrderedThreadSafeDict`: the backing map `db`
(an association list keyed by string), the insertion-order list `_order`, the
`_tagged_for_removal` ordered set (kept as a list in tagging order), and
`_max_size`.  Values are left abstract in the type parameter. -/
structure Store (α : Type) where
  db : List (String × α)
  order : List String
  tagged : List String
  maxSize : Nat
  deriving Repr, DecidableEq

/-- `key in db` for the association list. -/
def dbContains {α : Type} (db : List (String × α)) (k : String) : Bool :=
  db.any (fun p => p.1 = k)

/-- `db[key] = value`: replace if present, else append (Python dict semantics
for insertion). -/
def dbSet {α : Type} (db : List (String × α)) (k : String) (v : α) : List (String × α) :=
  if dbContains db k then db.map (fun p => if p.1 = k then (k, v) else p)
  else db ++ [(k, v)]

/-- `del db[key]` for the association list. -/
def dbDel {α : Type} (db : List (String × α)) (k : String) : List (String × α) :=
  db.filter (fun p => ¬ p.1 = k)

/-- `_set_item(db, key, value)`.  Returns the error message of the raised
`FullDictionaryError` paired with the post-state; the raise happens before any
mutation, so on error the state is returned unchanged exactly as in the
source. -/
def setItem {α : Type} (s : Store α) (key : String) (value : α) :
    Option String × Store α :=
  if dbContains s.db key then
    (none, { s with
      db := dbSet s.db key value,
      order := s.order.erase key ++ [key],
      tagged := s.tagged.erase key })
  else
    if 0 < s.maxSize ∧ s.maxSize ≤ s.order.length then
      match s.tagged with
      | [] => (some "No entry tagged for removal", s)
      | removalKey :: restTagged =>
        (none, { s with
          db := dbSet (dbDel s.db removalKey) key value,
          order := (s.order.erase removalKey) ++ [key],
          tagged := restTagged })
    else
      (none, { s with db := dbSet s.db key value, order := s.order ++ [key] })

/-- `tag_for_removal(key)`. -/
def tagForRemoval {α : Type} (s : Store α) (key : String) : Store α :=
  if key ∈ s.order ∧ key ∉ s.tagged then { s with tagged := s.tagged ++ [key] }
  else s

/-- `__delitem__` / `_del_internal`. -/
def delItem {α : Type} (s : Store α) (key : String) : Store α :=
  if dbContains s.db key then
    { s with db := dbDel s.db key, order := s.order.erase key,
             tagged := s.tagged.erase key }
  else s

/-- `keys()` returns a copy of `_order`; `get_items_reversed()` iterates
`reversed(self._order)` — the exposed newest-first key listing. -/
def keysReversed {α : Type} (s : Store α) : List String :=
  s.order.reverse

/-- Well-formedness tying the three mutable pieces together, maintained by the
class: `_order` lists exactly the stored keys without duplicates, and every
tagged key is stored. -/
def WF {α : Type} (s : Store α) : Prop :=
  s.order.Nodup ∧ (∀ k, dbContains s.db k = true ↔ k ∈ s.order) ∧
    (∀ k, k ∈ s.tagged → k ∈ s.order) ∧ s.tagged.Nodup

end Pd

/- ===================================================================
   Validation-error response code
   (src/concierge_acpi/request_handler.py  Handler._handle_validation_errors,
    src/concierge_acpi/request_validator.py HostValidator.validate_hosts)
   =================================================================== -/

namespace Handler

/-- A per-host validation error entry `{hostname, error}`. -/
structure HostError where
  hostname : String
  error : String
  deriving Repr, DecidableEq

/-- The allow-list `error_types` from `_handle_validation_errors`. -/
def errorTypes : List String := ["Host not allowed", "MAC not configured", "Command not allowed"]

/-- The status code picked by `_handle_validation_errors`:
`403 if any(e.get("error") in error_types for e in errors) else 500`. -/
def validationErrorsCode (errors : List HostError) : Nat :=
  if errors.any (fun e => e.error ∈ errorTypes) then 403 else 500

/-- The response body of `_handle_validation_errors` is `{"errors": errors}` —
the full collected detail list, unchanged. -/
def validationErrorsBody (errors : List HostError) : List HostError := errors

end Handler

/- ===================================================================
   WebSocket frame codec
   (src/concierge_acpi/websocket.py  _send_frame / _recv_frame)
   =================================================================== -/

namespace Ws

/-- Big-endian byte string of width `w` for `n` (`struct.pack ">H"` / `">Q"`). -/
def beBytes : Nat → Nat → List Nat
  | 0, _ => []
  | w + 1, n => beBytes w (n / 256) ++ [n % 256]

/-- Big-endian value of a byte string (`struct.unpack ">H"` / `">Q"`). -/
def beVal (bs : List Nat) : Nat :=
  bs.foldl (fun acc b => acc * 256 + b) 0

/-- `sock.recv(n)` against a finite byte stream, with the caller's
`len(data) < n` check folded in: returns the bytes and the remaining stream,
or `none` when the stream is short. -/
def readN (n : Nat) (s : List Nat) : Option (List Nat × List Nat) :=
  if n ≤ s.length then some (s.take n, s.drop n) else none

/-- `_send_frame`: server-to-client frame bytes for `payload` with the given
opcode.  First byte `0x80 | opcode`, then the RFC 6455 length encoding, then
the unmasked payload. -/
def sendFrame (opcode : Nat) (payload : List Nat) : List Nat :=
  let length := payload.length
  let header :=
    [0x80 ||| opcode] ++
      (if length < 126 then [length]
       else if length < 65536 then [126] ++ beBytes 2 length
       else [127] ++ beBytes 8 length)
  header ++ payload

/-- Masking of a payload from byte index `i`: `b ^ mask_key[i % 4]` (RFC 6455
client-side masking; the repository only contains the unmasking direction). -/
def maskFrom (key : List Nat) : Nat → List Nat → List Nat
  | _, [] => []
  | i, b :: bs => (b ^^^ key.getD (i % 4) 0) :: maskFrom key (i + 1) bs

/-- A well-formed masked client frame: like `sendFrame` but with the mask bit
set in the second byte, followed by the 4-byte mask key and the masked
payload. -/
def clientFrame (opcode : Nat) (key : List Nat) (payload : List Nat) : List Nat :=
  let length := payload.length
  [0x80 ||| opcode] ++
    (if length < 126 then [0x80 ||| length]
     else if length < 65536 then [0x80 ||| 126] ++ beBytes 2 length
     else [0x80 ||| 127] ++ beBytes 8 length) ++
    key ++ maskFrom key 0 payload

/-- Unmasking loop of `_recv_frame`:
`payload = bytes(b ^ mask_key[i % 4] for i, b in enumerate(payload))`.
Indexing a too-short `mask_key` raises `IndexError`, which the enclosing
`except` turns into the `None` result — modelled as `none`. -/
def unmaskFrom (key : List Nat) : Nat → List Nat → Option (List Nat)
  | _, [] => some []
  | i, b :: bs =>
    match key[i % 4]? with
    | none => none
    | some m => (unmaskFrom key (i + 1) bs).map (fun rest => (b ^^^ m) :: rest)

/-- `_recv_frame` on a byte stream: returns `(fin, opcode, payload)`, or
`none` for every path on which the source returns `(None, None, None)`. -/
def recvFrame (s : List Nat) : Option (Nat × Nat × List Nat) :=
  match s with
  | b1 :: b2 :: s1 =>
    let fin := (b1 >>> 7) &&& 1
    let opcode := b1 &&& 0x0f
    let masked := (b2 >>> 7) &&& 1
    let len0 := b2 &&& 0x7f
    let lenRest : Option (Nat × List Nat) :=
      if len0 = 126 then
        match readN 2 s1 with
        | some (lb, s2) => some (beVal lb, s2)
        | none => none
      else if len0 = 127 then
        match readN 8 s1 with
        | some (lb, s2) => some (beVal lb, s2)
        | none => none
      else some (len0, s1)
    match lenRest with
    | none => none
    | some (length, s2) =>
      -- `mask_key = sock.recv(4) if masked else None` (no length check here)
      let maskKey := if masked = 1 then s2.take 4 else []
      let s3 := if masked = 1 then s2.drop 4 else s2
      if length ≤ s3.length then
        let raw := s3.take length
        if masked = 1 ∧ maskKey ≠ [] then
          match unmaskFrom maskKey 0 raw with
          | some p => some (fin, opcode, p)
          | none => none
        else some (fin, opcode, raw)
      else none
  | _ => none

end Ws

/- ===================================================================
   Wake-on-LAN magic packet
   (src/concierge_acpi/task_executor_helper.py  send_wol)
   =================================================================== -/

namespace Wol

/-- Value of one hexadecimal digit as accepted by `bytes.fromhex`. -/
def hexDigitVal (c : Char) : Option Nat :=
  if 48 ≤ c.toNat ∧ c.toNat ≤ 57 then some (c.toNat - 48)
  else if 97 ≤ c.toNat ∧ c.toNat ≤ 102 then some (c.toNat - 87)
  else if 65 ≤ c.toNat ∧ c.toNat ≤ 70 then some (c.toNat - 55)
  else none

/-- `bytes.fromhex` on a spaceless hex string: pairs of hex digits to bytes;
an odd length or a non-hex character raises `ValueError` (`none`). -/
def fromhex : List Char → Option (List Nat)
  | [] => some []
  | [_] => none
  | c1 :: c2 :: rest =>
    match hexDigitVal c1, hexDigitVal c2, fromhex rest with
    | some h, some l, some bs => some ((h * 16 + l) :: bs)
    | _, _, _ => none

/-- `str.lower` restricted to ASCII (all characters reaching it in `send_wol`
are hex digits or separators). -/
def lowerChar (c : Char) : Char :=
  if 65 ≤ c.toNat ∧ c.toNat ≤ 90 then Char.ofNat (c.toNat + 32) else c

/-- `mac.replace(":", "").replace("-", "")`. -/
def stripSeps (mac : List Char) : List Char :=
  mac.filter (fun c => ¬ c = ':' ∧ ¬ c = '-')

/-- The observable effect of `send_wol`'s socket usage: the single datagram
sent by `s.sendto(pkt, ("255.255.255.255", 9))` with `SO_BROADCAST` set. -/
structure WolEffect where
  packet : List Nat
  destAddr : String
  destPort : Nat
  broadcast : Bool
  deriving Repr, DecidableEq

/-- `send_wol(mac)`: strip separators, lowercase, build
`bytes.fromhex("FF"*6 + mac*16)` and send it as one broadcast UDP datagram.
`none` when `bytes.fromhex` raises. -/
def sendWol (mac : List Char) : Option WolEffect :=
  let m := (stripSeps mac).map lowerChar
  let hexStr := (List.replicate 6 ("FF".data)).flatten ++ (List.replicate 16 m).flatten
  match fromhex hexStr with
  | some pkt => some ⟨pkt, "255.255.255.255", 9, true⟩
  | none => none

end Wol

/- ===================================================================
   JSON-mode typed placeholder substitution
   (src/concierge_acpi/task_executor_helper.py  replace_json_placeholders)

   Python strings are `List Char`.  Parameter values are the JSON-body
   values the API passes through: strings, ints, booleans, `None`, and
   nested lists/dicts.  Python `float` values are not a constructor of the
   value domain: each operation the helper applies to a float (`str`,
   `int`, `json.dumps`) depends on correctly-rounded IEEE-754 binary64
   conversion and shortest-repr printing, which this integer-exact
   embedding does not reimplement.  The float path that *is* reachable
   from the modelled values — `float(value)` on a `'.'`-containing string
   in the `number` branch, succeeding in CPython (e.g. `float('1.0e999')`
   is `inf` and `json.dumps(inf)` is `Infinity`) — is modelled explicitly
   through the `floatDumps` kernel parameter of `replacementFor` below, so
   no success of the source is mapped to an error.
   =================================================================== -/

namespace Jp

/-- A Python parameter value as it reaches `replace_json_placeholders`:
the JSON-body value domain minus floats (see the section comment above). -/
inductive PyVal where
  | str (s : List Char)
  | int (n : Int)
  | bool (b : Bool)
  | pynone
  | list (xs : List PyVal)
  | dict (ps : List (List Char × PyVal))
  deriving Repr

/-- JSON document values.  Numeric tokens are kept as their raw character
sequence (the claims depend on JSON structure, not numeric semantics).
`constant` is the result of CPython's `parse_constant` hook for the
non-standard `NaN` / `Infinity` / `-Infinity` constants `json.loads`
accepts, identified by the constant's name (the hook's default returns the
corresponding IEEE float). -/
inductive JsonVal where
  | null
  | bool (b : Bool)
  | num (tok : List Char)
  | str (s : List Char)
  | arr (elems : List JsonVal)
  | obj (members : List (List Char × JsonVal))
  | constant (name : List Char)
  deriving Repr

/-- JSON whitespace skipping (space, tab, newline, carriage return). -/
def skipWs : List Char → List Char
  | c :: cs => if c = ' ' ∨ c = '\t' ∨ c = '\n' ∨ c = '\r' then skipWs cs else c :: cs
  | [] => []

/-- Four hex digits, as in a `\uXXXX` escape. -/
def parseHex4 (cs : List Char) : Option (Nat × List Char) :=
  match cs with
  | a :: b :: c :: d :: rest =>
    match Wol.hexDigitVal a, Wol.hexDigitVal b, Wol.hexDigitVal c, Wol.hexDigitVal d with
    | some va, some vb, some vc, some vd => some (((va * 16 + vb) * 16 + vc) * 16 + vd, rest)
    | _, _, _, _ => none
  | _ => none

/-- JSON string contents after the opening quote, per the strict
`json.loads` scanner: shortcut escapes, `\uXXXX` (with surrogate-pair
combination), raw control characters rejected.  Lone surrogates — which
CPython keeps as non-scalar code units — are not representable as Unicode
scalar values and are outside this model. -/
def parseStringBody : Nat → List Char → Option (List Char × List Char)
  | 0, _ => none
  | _ + 1, [] => none
  | fuel + 1, c :: cs =>
    if c = '"' then some ([], cs)
    else if c = '\\' then
      match cs with
      | [] => none
      | e :: cs2 =>
        if e = '"' then (parseStringBody fuel cs2).map (fun p => ('"' :: p.1, p.2))
        else if e = '\\' then (parseStringBody fuel cs2).map (fun p => ('\\' :: p.1, p.2))
        else if e = '/' then (parseStringBody fuel cs2).map (fun p => ('/' :: p.1, p.2))
        else if e = 'b' then (parseStringBody fuel cs2).map (fun p => (Char.ofNat 8 :: p.1, p.2))
        else if e = 'f' then (parseStringBody fuel cs2).map (fun p => (Char.ofNat 12 :: p.1, p.2))
        else if e = 'n' then (parseStringBody fuel cs2).map (fun p => (Char.ofNat 10 :: p.1, p.2))
        else if e = 'r' then (parseStringBody fuel cs2).map (fun p => (Char.ofNat 13 :: p.1, p.2))
        else if e = 't' then (parseStringBody fuel cs2).map (fun p => (Char.ofNat 9 :: p.1, p.2))
        else if e = 'u' then
          match parseHex4 cs2 with
          | none => none
          | some (v, cs3) =>
            if 0xD800 ≤ v ∧ v ≤ 0xDBFF then
              match cs3 with
              | b2 :: u2 :: cs4 =>
                if b2 = '\\' ∧ u2 = 'u' then
                  match parseHex4 cs4 with
                  | some (v2, cs5) =>
                    if 0xDC00 ≤ v2 ∧ v2 ≤ 0xDFFF then
                      (parseStringBody fuel cs5).map
                        (fun p => (Char.ofNat (0x10000 + (v - 0xD800) * 0x400 + (v2 - 0xDC00)) :: p.1, p.2))
                    else none
                  | none => none
                else none
              | _ => none
            else if 0xDC00 ≤ v ∧ v ≤ 0xDFFF then none
            else (parseStringBody fuel cs3).map (fun p => (Char.ofNat v :: p.1, p.2))
        else none
    else if c.toNat < 0x20 then none
    else (parseStringBody fuel cs).map (fun p => (c :: p.1, p.2))

/-- A JSON number token (maximal match of
`-?(0|[1-9][0-9]*)(\.[0-9]+)?([eE][+-]?[0-9]+)?`), returned raw. -/
def parseNumberTail (intPart : List Char) (r : List Char) : List Char × List Char :=
  let (fracPart, r2) :=
    match r with
    | '.' :: r' =>
      let ds := r'.takeWhile Char.isDigit
      if ds = [] then (([] : List Char), r)
      else ('.' :: ds, r'.dropWhile Char.isDigit)
    | _ => ([], r)
  let (expPart, r3) :=
    match r2 with
    | e :: r' =>
      if e = 'e' ∨ e = 'E' then
        let (sign, r'') :=
          match r' with
          | s :: rr => if s = '+' ∨ s = '-' then (([s] : List Char), rr) else ([], r')
          | [] => ([], r')
        let ds := r''.takeWhile Char.isDigit
        if ds = [] then (([] : List Char), r2)
        else (e :: (sign ++ ds), r''.dropWhile Char.isDigit)
      else ([], r2)
    | [] => ([], r2)
  (intPart ++ fracPart ++ expPart, r3)

/-- A JSON number token starting at the head of the input, or `none`. -/
def parseNumber (cs : List Char) : Option (List Char × List Char) :=
  let (sign, cs1) :=
    match cs with
    | '-' :: r => ((['-'] : List Char), r)
    | _ => ([], cs)
  match cs1 with
  | [] => none
  | c :: r =>
    if c = '0' then some (parseNumberTail (sign ++ ['0']) r)
    else if '1' ≤ c ∧ c ≤ '9' then
      some (parseNumberTail (sign ++ cs1.takeWhile Char.isDigit) (cs1.dropWhile Char.isDigit))
    else none

mutual

/-- One JSON value at the head of the (whitespace-skipped) input.  The
`ac` flag selects whether CPython's non-standard constants `NaN`,
`Infinity` and `-Infinity` are accepted at value position, as
`py_make_scanner`'s `_scan_once` does for `json.loads` (strict JSON has
none of them).  CPython tries the number regexp before the constants; the
constant rows here precede the number catchall, which is equivalent
because no number token starts with `N` or `I`, and `-I` fails the number
match (a digit must follow the sign). -/
def parseValue : Bool → Nat → List Char → Option (JsonVal × List Char)
  | _, 0, _ => none
  | ac, fuel + 1, cs =>
    match cs with
    | '{' :: rest => parseMembers ac fuel (skipWs rest)
    | '[' :: rest => parseElems ac fuel (skipWs rest)
    | '"' :: rest => (parseStringBody (fuel + 1) rest).map (fun p => (JsonVal.str p.1, p.2))
    | 't' :: 'r' :: 'u' :: 'e' :: r => some (JsonVal.bool true, r)
    | 'f' :: 'a' :: 'l' :: 's' :: 'e' :: r => some (JsonVal.bool false, r)
    | 'n' :: 'u' :: 'l' :: 'l' :: r => some (JsonVal.null, r)
    | 'N' :: 'a' :: 'N' :: r =>
      if ac then some (JsonVal.constant "NaN".data, r) else none
    | 'I' :: 'n' :: 'f' :: 'i' :: 'n' :: 'i' :: 't' :: 'y' :: r =>
      if ac then some (JsonVal.constant "Infinity".data, r) else none
    | '-' :: 'I' :: 'n' :: 'f' :: 'i' :: 'n' :: 'i' :: 't' :: 'y' :: r =>
      if ac then some (JsonVal.constant "-Infinity".data, r) else none
    | _ => (parseNumber cs).map (fun p => (JsonVal.num p.1, p.2))

/-- Object members after `{` (whitespace already skipped): `}` or a first
`"key": value` member followed by `parseMembersCont`. -/
def parseMembers : Bool → Nat → List Char → Option (JsonVal × List Char)
  | _, 0, _ => none
  | ac, fuel + 1, cs =>
    match cs with
    | '}' :: r => some (JsonVal.obj [], r)
    | '"' :: rest =>
      match parseStringBody (fuel + 1) rest with
      | none => none
      | some (key, r1) =>
        match skipWs r1 with
        | ':' :: r2 =>
          match parseValue ac fuel (skipWs r2) with
          | none => none
          | some (v, r3) => parseMembersCont ac fuel [(key, v)] (skipWs r3)
        | _ => none
    | _ => none

/-- After a member: `,` and another member, or `}`. -/
def parseMembersCont : Bool → Nat → List (List Char × JsonVal) → List Char →
    Option (JsonVal × List Char)
  | _, 0, _, _ => none
  | ac, fuel + 1, acc, cs =>
    match cs with
    | '}' :: r => some (JsonVal.obj acc, r)
    | ',' :: r =>
      match skipWs r with
      | '"' :: rest =>
        match parseStringBody (fuel + 1) rest with
        | none => none
        | some (key, r1) =>
          match skipWs r1 with
          | ':' :: r2 =>
            match parseValue ac fuel (skipWs r2) with
            | none => none
            | some (v, r3) => parseMembersCont ac fuel (acc ++ [(key, v)]) (skipWs r3)
          | _ => none
      | _ => none
    | _ => none

/-- Array elements after `[` (whitespace already skipped). -/
def parseElems : Bool → Nat → List Char → Option (JsonVal × List Char)
  | _, 0, _ => none
  | ac, fuel + 1, cs =>
    match cs with
    | ']' :: r => some (JsonVal.arr [], r)
    | _ =>
      match parseValue ac fuel cs with
      | none => none
      | some (v, r1) => parseElemsCont ac fuel [v] (skipWs r1)

/-- After an element: `,` and another element, or `]`. -/
def parseElemsCont : Bool → Nat → List JsonVal → List Char → Option (JsonVal × List Char)
  | _, 0, _, _ => none
  | ac, fuel + 1, acc, cs =>
    match cs with
    | ']' :: r => some (JsonVal.arr acc, r)
    | ',' :: r =>
      match parseValue ac fuel (skipWs r) with
      | none => none
      | some (v, r1) => parseElemsCont ac fuel (acc ++ [v]) (skipWs r1)
    | _ => none

end

/-- `json.loads`: exactly one value plus surrounding whitespace.  Beyond
strict JSON, CPython's scanner accepts the `NaN` / `Infinity` /
`-Infinity` constants, hence the `true` flag. -/
def parseJson (s : List Char) : Option JsonVal :=
  match parseValue true (s.length + 2) (skipWs s) with
  | some (v, rest) => if skipWs rest = [] then some v else none
  | none => none

/-- Strict JSON parsing, following the spec's words: "the result must
parse as JSON" / "`JSON.parse(result)` succeeds".  RFC 8259 / ECMA-404
JSON (and JavaScript's `JSON.parse`) has no `NaN` / `Infinity` /
`-Infinity` constants; this is `parseJson` with them rejected, and is the
spec-side parser the claim's first conjunct is measured against. -/
def parseJsonStrict (s : List Char) : Option JsonVal :=
  match parseValue false (s.length + 2) (skipWs s) with
  | some (v, rest) => if skipWs rest = [] then some v else none
  | none => none

end Jp

namespace Jp

/-- One lowercase hex digit (CPython emits lowercase in `\uXXXX` escapes). -/
def hexDig (n : Nat) : Char :=
  if n < 10 then Char.ofNat (48 + n) else Char.ofNat (87 + n)

/-- `\uXXXX` escape text for a code unit `n < 0x10000`. -/
def uEscape (n : Nat) : List Char :=
  ['\\', 'u', hexDig (n / 4096 % 16), hexDig (n / 256 % 16), hexDig (n / 16 % 16), hexDig (n % 16)]

/-- Per-character escaping of `json.dumps` with its default `ensure_ascii=True`
(`py_encode_basestring_ascii`): shortcut escapes, raw printable ASCII,
`\uXXXX` for everything else, surrogate pairs beyond the BMP. -/
def escapeChar (c : Char) : List Char :=
  if c = '"' then ['\\', '"']
  else if c = '\\' then ['\\', '\\']
  else if c.toNat = 8 then ['\\', 'b']
  else if c.toNat = 9 then ['\\', 't']
  else if c.toNat = 10 then ['\\', 'n']
  else if c.toNat = 12 then ['\\', 'f']
  else if c.toNat = 13 then ['\\', 'r']
  else if c.toNat < 0x20 then uEscape c.toNat
  else if c.toNat < 0x7f then [c]
  else if c.toNat < 0x10000 then uEscape c.toNat
  else uEscape (0xD800 + (c.toNat - 0x10000) / 0x400) ++
    uEscape (0xDC00 + (c.toNat - 0x10000) % 0x400)

/-- The escaped body of a dumped string. -/
def escapeList (s : List Char) : List Char :=
  (s.map escapeChar).flatten

/-- `json.dumps` of a string value: quote, escape, quote. -/
def dumpsString (s : List Char) : List Char :=
  '"' :: (escapeList s ++ ['"'])

/-- `pat in s` (Python substring containment). -/
def containsSub (pat : List Char) : List Char → Bool
  | [] => pat.isEmpty
  | c :: rest => pat.isPrefixOf (c :: rest) || containsSub pat rest

/-- `str.replace(old, new)` for a non-empty pattern: all non-overlapping
occurrences, left to right.  (`(c :: cs).drop pat.length` is written
`cs.drop (pat.length - 1)`; the two agree since the branch requires
`pat ≠ []`.  The fuel argument makes the recursion structural; one unit per
consumed character suffices, and the zero-fuel row is unreachable from
`replaceAll`.) -/
def replaceAllF (pat rep : List Char) : Nat → List Char → List Char
  | _, [] => []
  | 0, s => s
  | fuel + 1, c :: cs =>
    if ¬ pat = [] ∧ pat.isPrefixOf (c :: cs) then
      rep ++ replaceAllF pat rep fuel (cs.drop (pat.length - 1))
    else c :: replaceAllF pat rep fuel cs

def replaceAll (pat rep s : List Char) : List Char :=
  replaceAllF pat rep s.length s

/-- Quote character `repr` picks for a Python `str`: `'`, unless the
string contains `'` and no `"`. -/
def pyReprQuote (s : List Char) : Char :=
  if Char.ofNat 39 ∈ s ∧ ¬ '"' ∈ s then '"' else Char.ofNat 39

/-- One character inside a `repr`ed string with quote `q`: backslash and
the quote are backslash-escaped, `\t` `\n` `\r` shortcuts, other control
characters as `\xXX`.  (CPython classifies non-ASCII characters with
`unicodedata` printability, outside this model; they are kept verbatim
here, which matches the printable ones.) -/
def pyReprEsc (q : Char) (c : Char) : List Char :=
  if c = '\\' ∨ c = q then ['\\', c]
  else if c.toNat = 9 then ['\\', 't']
  else if c.toNat = 10 then ['\\', 'n']
  else if c.toNat = 13 then ['\\', 'r']
  else if c.toNat < 0x20 ∨ c.toNat = 0x7f then
    ['\\', 'x', hexDig (c.toNat / 16), hexDig (c.toNat % 16)]
  else [c]

/-- `repr` of a Python `str`. -/
def pyReprStr (s : List Char) : List Char :=
  pyReprQuote s :: ((s.map (pyReprEsc (pyReprQuote s))).flatten ++ [pyReprQuote s])

mutual

/-- `repr(value)` for the modelled parameter values (what `str(value)`
falls back to on lists and dicts): elements separated by `, `, dict
entries as `key: value` with `repr`ed string keys. -/
def pyRepr : PyVal → List Char
  | .str s => pyReprStr s
  | .int n => (toString n).data
  | .bool b => if b then "True".data else "False".data
  | .pynone => "None".data
  | .list xs => '[' :: (pyReprList xs ++ [']'])
  | .dict ps => Char.ofNat 123 :: (pyReprMembers ps ++ [Char.ofNat 125])

def pyReprList : List PyVal → List Char
  | [] => []
  | [v] => pyRepr v
  | v :: w :: vs => pyRepr v ++ ',' :: ' ' :: pyReprList (w :: vs)

def pyReprMembers : List (List Char × PyVal) → List Char
  | [] => []
  | [(k, v)] => pyReprStr k ++ ':' :: ' ' :: pyRepr v
  | (k, v) :: p :: ps =>
    pyReprStr k ++ ':' :: ' ' :: pyRepr v ++ ',' :: ' ' :: pyReprMembers (p :: ps)

end

mutual

/-- `json.dumps(value)` (default `ensure_ascii=True`, separators `, ` and
`: `) for the modelled parameter values — used by the `json` and `array`
branches on dict/list values. -/
def dumpsPyVal : PyVal → List Char
  | .str s => dumpsString s
  | .int n => (toString n).data
  | .bool b => if b then "true".data else "false".data
  | .pynone => "null".data
  | .list xs => '[' :: (dumpsPyList xs ++ [']'])
  | .dict ps => Char.ofNat 123 :: (dumpsPyMembers ps ++ [Char.ofNat 125])

def dumpsPyList : List PyVal → List Char
  | [] => []
  | [v] => dumpsPyVal v
  | v :: w :: vs => dumpsPyVal v ++ ',' :: ' ' :: dumpsPyList (w :: vs)

def dumpsPyMembers : List (List Char × PyVal) → List Char
  | [] => []
  | [(k, v)] => dumpsString k ++ ':' :: ' ' :: dumpsPyVal v
  | (k, v) :: p :: ps =>
    dumpsString k ++ ':' :: ' ' :: dumpsPyVal v ++ ',' :: ' ' :: dumpsPyMembers (p :: ps)

end

/-- `str(value)` for the modelled parameter values (`str` of a list or
dict is its `repr`). -/
def pyStrOf : PyVal → List Char
  | .str s => s
  | .int n => (toString n).data
  | .bool b => if b then "True".data else "False".data
  | .pynone => "None".data
  | .list xs => pyRepr (.list xs)
  | .dict ps => pyRepr (.dict ps)

/-- `str.lower()` restricted to ASCII (the strings compared against are the
ASCII literals of the boolean branch). -/
def lower (s : List Char) : List Char := s.map Wol.lowerChar

/-- `{"hostname": hostname}` followed by `all_params.update(params)` with
Python dict semantics (replacing keeps the original position). -/
def dictUpdate (d : List (List Char × PyVal)) (kv : List Char × PyVal) :
    List (List Char × PyVal) :=
  if d.any (fun p => p.1 = kv.1) then
    d.map (fun p => if p.1 = kv.1 then (p.1, kv.2) else p)
  else d ++ [kv]

def allParams (hostname : List Char) (params : List (List Char × PyVal)) :
    List (List Char × PyVal) :=
  params.foldl dictUpdate [("hostname".data, PyVal.str hostname)]

def typePrefixes : List (List Char) :=
  ["string".data, "number".data, "boolean".data, "json".data, "array".data]

/-- `int(s)` on a plain optionally-signed decimal numeral (the underscore and
whitespace forms `int` also accepts are outside this model). -/
def natFromDigits? (ds : List Char) : Option Nat :=
  if ds ≠ [] ∧ ds.all Char.isDigit then
    some (ds.foldl (fun acc c => acc * 10 + (c.toNat - 48)) 0)
  else none

def intFromStr? : List Char → Option Int
  | '-' :: ds => (natFromDigits? ds).map (fun n => -(n : Int))
  | '+' :: ds => (natFromDigits? ds).map (fun n => (n : Int))
  | ds => (natFromDigits? ds).map (fun n => (n : Int))

/-- The `replacement` computed for one `<T_key>` placeholder whose key is
present, or the message of the exception the branch raises.

`floatDumps` is the one IEEE-754 kernel of the function, kept as an
explicit parameter: `floatDumps s = some out` means CPython's `float(s)`
succeeds and `json.dumps(float(s))` is `out` — the shortest-repr decimal
for a finite value, `Infinity` / `-Infinity` when the literal overflows
binary64 (e.g. `float('1.0e999')` is `inf`, dumped as `Infinity`) — and
`floatDumps s = none` means `float(s)` raises `ValueError`, which the
branch catches.  Correctly-rounded decimal-to-binary64 conversion and
shortest-repr printing are not reimplemented here; the theorems below
quantify over `floatDumps`, and each concrete instance they are applied
to agrees with CPython at every point used.

Branch notes tying the model to the source:
* `number`: `bool` raises and is caught (`Boolean not allowed`); an `int`
  never contains `'.'` so takes the exact `int(value)` path; a string
  containing `'.'` takes the `float(value)` path through `floatDumps`;
  `None`, lists and dicts raise `TypeError` from `float`/`int`, which the
  branch catches into the same message (`str(None)` has no `'.'`; a
  list/dict `repr` may contain one, but `float` of either raises all the
  same).
* `json`/`array`: `json.JSONDecodeError` is caught and re-raised with the
  parameter message, but the plain `ValueError("Must be a JSON object")` for
  a parsed non-object is *not* caught by `except (JSONDecodeError, TypeError)`
  and propagates as-is; same for arrays.  String values are validated with
  `json.loads` (`parseJson`, constants and all) and inserted verbatim; dict
  (resp. list) values are dumped with `json.dumps`; everything else fails
  the `isinstance` checks and raises the uncaught `ValueError`. -/
def replacementFor (floatDumps : List Char → Option (List Char))
    (prefixT : List Char) (key placeholder : List Char) (value : PyVal) :
    Except (List Char) (List Char) :=
  if prefixT = "string".data then
    .ok (dumpsString (pyStrOf value))
  else if prefixT = "number".data then
    match value with
    | .bool _ =>
      .error ("Parameter '".data ++ key ++ "' cannot be converted to number for ".data ++ placeholder)
    | .int n => .ok (toString n).data
    | .str s =>
      if '.' ∈ s then
        match floatDumps s with
        | some out => .ok out
        | none =>
          .error ("Parameter '".data ++ key ++ "' cannot be converted to number for ".data ++ placeholder)
      else
        match intFromStr? s with
        | some n => .ok (toString n).data
        | none =>
          .error ("Parameter '".data ++ key ++ "' cannot be converted to number for ".data ++ placeholder)
    | _ =>
      .error ("Parameter '".data ++ key ++ "' cannot be converted to number for ".data ++ placeholder)
  else if prefixT = "boolean".data then
    match value with
    | .bool b => .ok (if b then "true".data else "false".data)
    | v =>
      let sl := lower (pyStrOf v)
      if sl = "true".data ∨ sl = "1".data ∨ sl = "yes".data then .ok "true".data
      else if sl = "false".data ∨ sl = "0".data ∨ sl = "no".data then .ok "false".data
      else
        .error ("Parameter '".data ++ key ++ "' cannot be converted to boolean for ".data ++ placeholder)
  else if prefixT = "json".data then
    match value with
    | .str s =>
      match parseJson s with
      | none => .error ("Parameter '".data ++ key ++ "' is not valid JSON for ".data ++ placeholder)
      | some (JsonVal.obj _) => .ok s
      | some _ => .error "Must be a JSON object".data
    | .dict ps => .ok (dumpsPyVal (.dict ps))
    | _ => .error "Must be a JSON object".data
  else
    match value with
    | .str s =>
      match parseJson s with
      | none =>
        .error ("Parameter '".data ++ key ++ "' is not valid JSON array for ".data ++ placeholder)
      | some (JsonVal.arr _) => .ok s
      | some _ => .error "Must be a JSON array".data
    | .list xs => .ok (dumpsPyVal (.list xs))
    | _ => .error "Must be a JSON array".data

/-- The body of the inner loop over `type_prefix`: skip when the placeholder
does not occur, otherwise compute the replacement and substitute everywhere. -/
def applyOne (floatDumps : List Char → Option (List Char))
    (key : List Char) (value : PyVal) (result : List Char) (prefixT : List Char) :
    Except (List Char) (List Char) :=
  let placeholder := '<' :: (prefixT ++ '_' :: (key ++ ['>']))
  if containsSub placeholder result then
    match replacementFor floatDumps prefixT key placeholder value with
    | .error e => .error e
    | .ok rep => .ok (replaceAll placeholder rep result)
  else .ok result

/-- `replace_json_placeholders(json_text, hostname, params)`; `floatDumps`
as documented at `replacementFor`.  The final validation is `json.loads`
(`parseJson`), which also accepts the non-standard constants. -/
def replaceJsonPlaceholders (floatDumps : List Char → Option (List Char))
    (jsonText : List Char) (hostname : List Char)
    (params : List (List Char × PyVal)) : Except (List Char) (List Char) := do
  let result ← (allParams hostname params).foldlM
    (fun r kv => typePrefixes.foldlM (fun r' p => applyOne floatDumps kv.1 kv.2 r' p) r) jsonText
  match parseJson result with
  | some _ => pure result
  | none =>
    .error "Resulting payload is not valid JSON after placeholder replacement".data

end Jp

/- ===================================================================
   WebSocket HMAC tokens
   (src/concierge_acpi/websocket.py  issue_token / _verify_token)

   Bytes are `List Nat`.  The HMAC-SHA256 primitive is a parameter
   `H : secret → msg → digest` (its only structural property, a 32-byte
   digest, enters as a hypothesis where the slicing depends on it).  Token
   fields are byte strings; `msg.decode().split(":")` agrees with splitting
   the UTF-8 bytes on byte 58 since multi-byte sequences contain no byte
   < 0x80.
   =================================================================== -/

namespace Tok

/-- Byte value of base64url alphabet character `i` (`A-Z a-z 0-9 - _`). -/
def b64Char (i : Nat) : Nat :=
  if i < 26 then 65 + i
  else if i < 52 then 97 + (i - 26)
  else if i < 62 then 48 + (i - 52)
  else if i = 62 then 45
  else 95

/-- Inverse alphabet lookup. -/
def b64CharVal (c : Nat) : Option Nat :=
  if 65 ≤ c ∧ c ≤ 90 then some (c - 65)
  else if 97 ≤ c ∧ c ≤ 122 then some (c - 97 + 26)
  else if 48 ≤ c ∧ c ≤ 57 then some (c - 48 + 52)
  else if c = 45 then some 62
  else if c = 95 then some 63
  else none

/-- `base64.urlsafe_b64encode`: 3-byte groups to 4 characters, `=`-padded. -/
def b64Encode : List Nat → List Nat
  | [] => []
  | [a] => [b64Char (a / 4), b64Char (a % 4 * 16), 61, 61]
  | [a, b] => [b64Char (a / 4), b64Char (a % 4 * 16 + b / 16), b64Char (b % 16 * 4), 61]
  | a :: b :: c :: rest =>
    b64Char (a / 4) :: b64Char (a % 4 * 16 + b / 16) ::
      b64Char (b % 16 * 4 + c / 64) :: b64Char (c % 64) :: b64Encode rest

/-- `base64.urlsafe_b64decode` on well-padded input (the inverse direction on
encoder output; the lenient skipping of foreign characters CPython applies to
arbitrary input is not needed by any call site modelled here).  The `=`
(byte 61) padding cases apply only to the final 4-character group. -/
def b64Decode : List Nat → Option (List Nat)
  | [] => some []
  | c1 :: c2 :: c3 :: c4 :: rest =>
    if c3 = 61 ∧ c4 = 61 ∧ rest = [] then
      match b64CharVal c1, b64CharVal c2 with
      | some v1, some v2 => some [v1 * 4 + v2 / 16]
      | _, _ => none
    else if c4 = 61 ∧ rest = [] then
      match b64CharVal c1, b64CharVal c2, b64CharVal c3 with
      | some v1, some v2, some v3 => some [v1 * 4 + v2 / 16, v2 % 16 * 16 + v3 / 4]
      | _, _, _ => none
    else
      match b64CharVal c1, b64CharVal c2, b64CharVal c3, b64CharVal c4, b64Decode rest with
      | some v1, some v2, some v3, some v4, some bs =>
        some ([v1 * 4 + v2 / 16, v2 % 16 * 16 + v3 / 4, v3 % 4 * 64 + v4] ++ bs)
      | _, _, _, _, _ => none
  | _ => none

/-- `str(n)` for a natural number, as ASCII digit bytes.  The fuel argument
makes the recursion structural (`n / 10 < n` keeps `n + 1` units sufficient);
the zero-fuel row is unreachable from `decimalBytes`. -/
def decimalBytesF : Nat → Nat → List Nat
  | 0, _ => []
  | fuel + 1, n => if n < 10 then [48 + n] else decimalBytesF fuel (n / 10) ++ [48 + n % 10]

def decimalBytes (n : Nat) : List Nat :=
  decimalBytesF (n + 1) n

/-- `int(s)` on a plain unsigned decimal numeral (the signed, underscore and
whitespace forms `int` accepts never occur in issued tokens). -/
def parseDecimalVal (bs : List Nat) : Nat :=
  bs.foldl (fun acc b => acc * 10 + (b - 48)) 0

def parseDecimal (bs : List Nat) : Option Nat :=
  if ¬ bs = [] ∧ bs.all (fun b => 48 ≤ b ∧ b ≤ 57) then some (parseDecimalVal bs) else none

/-- `str.split(":")` on UTF-8 bytes (byte 58). -/
def splitColon : List Nat → List (List Nat)
  | [] => [[]]
  | b :: bs =>
    if b = 58 then [] :: splitColon bs
    else
      match splitColon bs with
      | h :: t => (b :: h) :: t
      | [] => [[b]]

/-- `issue_token(user_id, task_id, hostname)` with the ambient time and the
generated nonce made explicit:
`exp = int(time.time() + token_ttl)`, `msg = user:task:host:exp:nonce`,
token `= urlsafe_b64encode(msg ‖ HMAC(secret, msg))`. -/
def issueToken (H : List Nat → List Nat → List Nat) (secret : List Nat)
    (user task host : List Nat) (now0 ttl : Nat) (nonce : List Nat) : List Nat :=
  let msg := user ++ 58 :: task ++ 58 :: host ++ 58 :: decimalBytes (now0 + ttl) ++ 58 :: nonce
  b64Encode (msg ++ H secret msg)

/-- The nonce-table state: `used_nonces : nonce → exp` in insertion order. -/
abbrev NonceTable := List (List Nat × Nat)

/-- `_verify_token(token)`.  Returns the verification result together with
the post-state of `self.used_nonces` (the pruned table is written back even
on the expired/replay paths, exactly as the assignment before those checks
does in the source).  Early failures (decode, signature, field parsing)
leave the table untouched. -/
def verifyToken (H : List Nat → List Nat → List Nat) (secret : List Nat)
    (used : NonceTable) (now : Nat) (token : List Nat) :
    Except String (List Nat × List Nat × List Nat) × NonceTable :=
  match b64Decode token with
  | none => (.error "binascii.Error: invalid base64", used)
  | some raw =>
    let msg := raw.take (raw.length - 32)
    let sig := raw.drop (raw.length - 32)
    if ¬ H secret msg = sig then (.error "Invalid signature", used)
    else
      let parts := splitColon msg
      match parts[0]?, parts[1]?, parts[2]?, parts[3]?, parts[4]? with
      | some user, some taskId, some hostname, some expBytes, some nonce =>
        match parseDecimal expBytes with
        | none => (.error "ValueError: invalid literal for int", used)
        | some exp =>
          let pruned := used.filter (fun p => now < p.2)
          if now > exp then (.error "Token expired", pruned)
          else if pruned.any (fun p => p.1 = nonce) then
            (.error "Token replay detected", pruned)
          else (.ok (user, taskId, hostname), pruned ++ [(nonce, exp)])
      | _, _, _, _, _ => (.error "IndexError: list index out of range", used)

end Tok

/- ===================================================================
   Task record updates
   (src/concierge_acpi/task_executor.py  StreamableProcess._update_task,
    HTTPProcess._update_tasks, TaskExecutor._atomic_task_update;
    src/concierge_acpi/task_scheduler.py  _update_parent_task_progress
    and the end of _execute_plan_sync)
   =================================================================== -/

namespace Tasks

/-- The fields of a Task record the completion/progress/loop-end operations
read or write, with `running`/`success`/`errors` entries reduced to their
hostname (payload fields are irrelevant to the lifecycle invariant), plus the
store's tagged-for-eviction mark for this record. -/
structure TaskRec where
  running : List String
  success : List String
  errors : List String
  endTimestamp : Option Nat
  tagged : Bool
  deriving Repr, DecidableEq

inductive Outcome where
  | success
  | error
  deriving Repr, DecidableEq

/-- The shared shape of `_update_task`, `_update_tasks` and
`_atomic_task_update`: append the host's entry to `success` or `errors`,
remove its entry from `running`, and when `running` empties set
`end_timestamp` (if absent) and tag the task for removal. -/
def completionUpdate (t : TaskRec) (h : String) (oc : Outcome) (nowMs : Nat) : TaskRec :=
  let t1 :=
    match oc with
    | .success => { t with success := t.success ++ [h] }
    | .error => { t with errors := t.errors ++ [h] }
  let t2 := { t1 with running := t1.running.erase h }
  if t2.running = [] then
    { t2 with endTimestamp := some (t2.endTimestamp.getD nowMs), tagged := true }
  else t2

end Tasks

/- ===================================================================
   Execution-plan interpreter: condition checks and the skip branch
   (src/concierge_acpi/task_scheduler.py  _check_conditions and the
    per-item body of _execute_plan_sync)
   =================================================================== -/

namespace Plan

/-- The conditional fields of one plan task (each `Option` models the
"key present and not None" pattern; `none`-like falsy strings are collapsed
by `truthy` below, mirroring `plan_task[...] and` guards). -/
structure PlanTask where
  ifPrevCommand : Option Nat
  ifPrevCommandResult : Option (List Char)
  ifPrevOutputContains : Option (List Char)
  onSuccessJumpTo : Option Nat
  onErrorJumpTo : Option Nat
  deriving Repr

/-- `key in d and d[key]` for a string field: present and non-empty. -/
def truthy : Option (List Char) → Option (List Char)
  | some s => if s = [] then none else some s
  | none => none

/-- One entry of a recorded sub-task result's `success`/`errors` list,
reduced to its optional `output` field. -/
abbrev OutEntry := Option (List Char)

/-- A recorded result in the plan's local `task_results` map. -/
structure ResultRec where
  success : List OutEntry
  errors : List OutEntry
  deriving Repr

/-- `task_results` lookup (`prev_idx in task_results` / `task_results[i]`). -/
def lookupRes (rs : List (Nat × ResultRec)) (i : Nat) : Option ResultRec :=
  (rs.find? (fun p => p.1 = i)).map (fun p => p.2)

/-- The failure disjunction on `if_previous_command_result`:
`all_success` with errors, `any_success` with no success, `all_error` with a
success, `any_error` with no errors. -/
def condResultFails (cond : List Char) (r : ResultRec) : Bool :=
  (cond = "all_success".data ∧ 0 < r.errors.length) ∨
  (cond = "any_success".data ∧ r.success.length = 0) ∨
  (cond = "all_error".data ∧ 0 < r.success.length) ∨
  (cond = "any_error".data ∧ r.errors.length = 0)

/-- `"\n".join(all_outputs)` over the `output` fields present in `success`
then `errors` entries. -/
def joinNl : List (List Char) → List Char
  | [] => []
  | [x] => x
  | x :: xs => x ++ '\n' :: joinNl xs

def combinedOutput (r : ResultRec) : List Char :=
  joinNl (r.success.filterMap id ++ r.errors.filterMap id)

/-- `_check_conditions(plan_task, task_results, current_idx)`. -/
def checkConditions (pt : PlanTask) (results : List (Nat × ResultRec))
    (currentIdx : Nat) : Bool :=
  match pt.ifPrevCommand with
  | none => true
  | some prevIdx =>
    if currentIdx ≤ prevIdx then false
    else
      match lookupRes results prevIdx with
      | none => false
      | some prevResult =>
        (match truthy pt.ifPrevCommandResult with
         | some cond => ¬ condResultFails cond prevResult
         | none => true) &&
        (match truthy pt.ifPrevOutputContains with
         | some sub => Jp.containsSub sub (combinedOutput prevResult)
         | none => true)

/-- The interpreter-loop state visible to one task item: the loop index into
the execution sequence, the local result map, the parent's `plan_tasks`
status map, and the sub-task ids created so far. -/
structure PlanState where
  idx : Nat
  results : List (Nat × ResultRec)
  statuses : List (Nat × List Char)
  dispatched : List Nat
  deriving Repr

/-- `task["plan_tasks"][str(idx)] = {...}` (update or insert). -/
def setStatus (sts : List (Nat × List Char)) (i : Nat) (st : List Char) :
    List (Nat × List Char) :=
  if sts.any (fun p => p.1 = i) then
    sts.map (fun p => if p.1 = i then (i, st) else p)
  else sts ++ [(i, st)]

/-- One iteration of the `_execute_plan_sync` loop body for a task item at
sequence position `st.idx` with original index `taskIdx`.  The dispatch of
`_execute_plan_task` (thread fan-out and polling wait) is abstracted into the
`execute` parameter producing the recorded result, and
`_find_task_index_in_sequence` into `resolveJump`; the skip branch — the one
the conditional claims are about — is fully concrete: mark `skipped`, leave
the result map and the created sub-tasks untouched, advance by one. -/
def planIter (pt : PlanTask) (taskIdx : Nat) (st : PlanState)
    (execute : PlanState → ResultRec) (resolveJump : Nat → Nat) : PlanState :=
  let st1 := { st with statuses := setStatus st.statuses taskIdx "scheduled".data }
  if ¬ checkConditions pt st1.results taskIdx then
    { st1 with statuses := setStatus st1.statuses taskIdx "skipped".data, idx := st.idx + 1 }
  else
    let st2 := { st1 with statuses := setStatus st1.statuses taskIdx "waiting".data }
    let r := execute st2
    let st3 := { st2 with
      results := st2.results ++ [(taskIdx, r)],
      dispatched := st2.dispatched ++ [taskIdx],
      statuses := setStatus st2.statuses taskIdx "completed".data }
    let hasErrors := 0 < r.errors.length
    let hasSuccess := 0 < r.success.length
    let nextIdx :=
      if hasErrors ∧ ¬ hasSuccess ∧ pt.onErrorJumpTo.isSome then
        resolveJump (pt.onErrorJumpTo.getD 0)
      else if hasSuccess ∧ pt.onSuccessJumpTo.isSome then
        resolveJump (pt.onSuccessJumpTo.getD 0)
      else st.idx + 1
    { st3 with idx := nextIdx }

end Plan

/- ===================================================================
   Shared helper lemmas
   =================================================================== -/

namespace Pd

/-- `db[key]` lookup for the association list. -/
def dbGet {α : Type} (db : List (String × α)) (k : String) : Option α :=
  (db.find? (fun p => p.1 = k)).map (fun p => p.2)

theorem dbGet_dbSet {α : Type} (db : List (String × α)) (k : String) (v : α)
    (h : dbContains db k = true) : dbGet (dbSet db k v) k = some v := by
  simp only [dbSet, h, if_true]
  induction db with
  | nil => simp [dbContains] at h
  | cons p ps ih =>
    by_cases hp : p.1 = k
    · simp [dbGet, List.find?, hp]
    · have hps : dbContains ps k = true := by
        simp only [dbContains, List.any_cons, Bool.or_eq_true, decide_eq_true_eq] at h
        rcases h with h | h
        · exact absurd h hp
        · simpa [dbContains] using h
      simp only [List.map_cons, if_neg hp]
      simpa [dbGet, List.find?, hp] using ih hps

end Pd

/- ===================================================================
   Theorems for the claims
   =================================================================== -/

/-- C2 counterexample: a dispatch collecting one allow-listed error
(`Host not allowed`) and one non-allow-listed error (`Invalid timeout`) gets
status 403 from `_handle_validation_errors`, although not every per-host
error is allow-listed — the claim's "403 if and only if every error is
allow-listed; otherwise 500" is false on the code, which tests `any`, not
`all`. -/
theorem c2_mixed_errors_counterexample :
    Handler.validationErrorsCode
        [⟨"h1", "Host not allowed"⟩, ⟨"h2", "Invalid timeout"⟩] = 403 ∧
      ¬ (∀ e ∈ ([⟨"h1", "Host not allowed"⟩, ⟨"h2", "Invalid timeout"⟩] :
          List Handler.HostError), e.error ∈ Handler.errorTypes) := by
  constructor
  · rfl
  · intro h
    have := h ⟨"h2", "Invalid timeout"⟩ (by simp)
    simp [Handler.errorTypes] at this

/-- C2 (amended): for every POST dispatch whose per-host validation produces
a non-empty error list, the status is 403 if and only if at least one
collected error is one of the allow-listed strings (`Host not allowed`,
`MAC not configured`, `Command not allowed`), 500 if and only if none is,
and in both cases the response body carries the full detail list. -/
theorem c2_validation_code (errors : List Handler.HostError) (hne : ¬ errors = []) :
    (Handler.validationErrorsCode errors = 403 ↔
      ∃ e ∈ errors, e.error ∈ Handler.errorTypes) ∧
    (Handler.validationErrorsCode errors = 500 ↔
      ∀ e ∈ errors, e.error ∉ Handler.errorTypes) ∧
    Handler.validationErrorsBody errors = errors := by
  refine ⟨?_, ?_, rfl⟩ <;>
    simp only [Handler.validationErrorsCode] <;>
    by_cases h : errors.any (fun e => e.error ∈ Handler.errorTypes) <;>
    simp_all [List.any_eq_true]

/-- C2 witness. -/
theorem c2_validation_code_witness :
    Handler.validationErrorsCode [⟨"h1", "Host not allowed"⟩] = 403 := by
  have h := c2_validation_code [⟨"h1", "Host not allowed"⟩] (by simp)
  exact h.1.mpr ⟨⟨"h1", "Host not allowed"⟩, by simp, by simp [Handler.errorTypes]⟩

/-- C4: on a set of a new key while `max_size > 0` and the store is at
capacity, (a) with a non-empty tagged set the earliest-tagged key is evicted
(removed from the backing map and from the order) and the new key appended;
(b) with no tagged entry the call fails with the `FullDictionaryError` and
returns the store unchanged; (c) across all `_set_item` calls, a key that
disappears from the order was tagged for removal — no untagged entry is ever
evicted. -/
theorem c4_capacity_eviction :
    (∀ (α : Type) (s : Pd.Store α) (key : String) (value : α) (oldest : String)
        (rest : List String),
        Pd.dbContains s.db key = false → 0 < s.maxSize → s.order.length = s.maxSize →
        s.tagged = oldest :: rest →
        Pd.setItem s key value =
          (none, ⟨Pd.dbSet (Pd.dbDel s.db oldest) key value,
                  s.order.erase oldest ++ [key], rest, s.maxSize⟩)) ∧
    (∀ (α : Type) (s : Pd.Store α) (key : String) (value : α),
        Pd.dbContains s.db key = false → 0 < s.maxSize → s.order.length = s.maxSize →
        s.tagged = [] →
        Pd.setItem s key value = (some "No entry tagged for removal", s)) ∧
    (∀ (α : Type) (s : Pd.Store α) (key k' : String) (value : α),
        k' ∈ s.order → k' ∉ (Pd.setItem s key value).2.order → k' ∈ s.tagged) := by
  refine ⟨?_, ?_, ?_⟩
  · intro α s key value oldest rest h1 h2 h3 h4
    simp [Pd.setItem, h1, h4, h2, h3.ge]
  · intro α s key value h1 h2 h3 h4
    simp [Pd.setItem, h1, h4, h2, h3.ge]
  · intro α s key k' value hmem hnot
    by_cases h1 : Pd.dbContains s.db key
    · exfalso
      apply hnot
      simp only [Pd.setItem, h1, if_true, List.mem_append]
      by_cases hk : k' = key
      · exact Or.inr (by simp [hk])
      · exact Or.inl ((List.mem_erase_of_ne hk).mpr hmem)
    · simp only [Pd.setItem, Bool.not_eq_true] at h1
      simp only [Pd.setItem, h1, Bool.false_eq_true, if_false] at hnot
      by_cases h2 : 0 < s.maxSize ∧ s.maxSize ≤ s.order.length
      · rw [if_pos h2] at hnot
        cases htag : s.tagged with
        | nil =>
          rw [htag] at hnot
          exact absurd hmem hnot
        | cons oldest rest =>
          rw [htag] at hnot
          simp only [List.mem_append] at hnot
          push_neg at hnot
          by_cases hk : k' = oldest
          · rw [hk]
            exact List.mem_cons_self oldest rest
          · exact absurd ((List.mem_erase_of_ne hk).mpr hmem) hnot.1
      · rw [if_neg h2] at hnot
        simp only [List.mem_append] at hnot
        push_neg at hnot
        exact absurd hmem hnot.1

/-- C4 witness: a two-slot store at capacity with its oldest key tagged
evicts exactly that key on inserting a third, and the same store with no
tags rejects the insert unchanged. -/
theorem c4_capacity_eviction_witness :
    Pd.setItem (⟨[("a", 0), ("b", 1)], ["a", "b"], ["a"], 2⟩ : Pd.Store Nat) "c" 2 =
      (none, ⟨[("b", 1), ("c", 2)], ["b", "c"], [], 2⟩) ∧
    Pd.setItem (⟨[("a", 0), ("b", 1)], ["a", "b"], [], 2⟩ : Pd.Store Nat) "c" 2 =
      (some "No entry tagged for removal", ⟨[("a", 0), ("b", 1)], ["a", "b"], [], 2⟩) ∧
    "a" ∈ (⟨[("a", 0), ("b", 1)], ["a", "b"], ["a"], 2⟩ : Pd.Store Nat).tagged := by
  refine ⟨?_, ?_, ?_⟩
  · have h := c4_capacity_eviction.1 Nat ⟨[("a", 0), ("b", 1)], ["a", "b"], ["a"], 2⟩
      "c" 2 "a" [] (by decide) (by decide) (by decide) rfl
    simpa [Pd.dbSet, Pd.dbDel, Pd.dbContains] using h
  · exact c4_capacity_eviction.2.1 Nat ⟨[("a", 0), ("b", 1)], ["a", "b"], [], 2⟩
      "c" 2 (by decide) (by decide) (by decide) rfl
  · exact c4_capacity_eviction.2.2 Nat ⟨[("a", 0), ("b", 1)], ["a", "b"], ["a"], 2⟩
      "c" "a" 2 (by decide) (by decide)

/-- C9: setting a key already present never evicts (every previously listed
key stays listed, even at capacity — the branch never consults `max_size`),
clears any removal tag on the key, replaces the stored value, and moves the
key to the most-recent end of the order, so it surfaces first in the
reversed (newest-first) listing. -/
theorem c9_update_existing (α : Type) (s : Pd.Store α) (key : String) (value : α)
    (h : Pd.dbContains s.db key = true) (hnd : s.tagged.Nodup) :
    Pd.setItem s key value =
      (none, ⟨Pd.dbSet s.db key value, s.order.erase key ++ [key],
              s.tagged.erase key, s.maxSize⟩) ∧
    (∀ k', k' ∈ s.order → k' ∈ (Pd.setItem s key value).2.order) ∧
    key ∉ (Pd.setItem s key value).2.tagged ∧
    Pd.dbGet (Pd.setItem s key value).2.db key = some value ∧
    Pd.keysReversed (Pd.setItem s key value).2 = key :: (s.order.erase key).reverse := by
  have heq : Pd.setItem s key value =
      (none, ⟨Pd.dbSet s.db key value, s.order.erase key ++ [key],
              s.tagged.erase key, s.maxSize⟩) := by
    simp [Pd.setItem, h]
  refine ⟨heq, ?_, ?_, ?_, ?_⟩
  · intro k' hk'
    rw [heq]
    simp only [List.mem_append]
    by_cases hkk : k' = key
    · exact Or.inr (by simp [hkk])
    · exact Or.inl ((List.mem_erase_of_ne hkk).mpr hk')
  · rw [heq]
    exact hnd.not_mem_erase
  · rw [heq]
    exact Pd.dbGet_dbSet s.db key value h
  · rw [heq]
    simp [Pd.keysReversed]

/-- C9 witness. -/
theorem c9_update_existing_witness :
    Pd.setItem (⟨[("a", 0), ("b", 1)], ["a", "b"], ["a"], 2⟩ : Pd.Store Nat) "a" 7 =
      (none, ⟨[("a", 7), ("b", 1)], ["b", "a"], [], 2⟩) := by
  have h := (c9_update_existing Nat ⟨[("a", 0), ("b", 1)], ["a", "b"], ["a"], 2⟩ "a" 7
    (by decide) (by decide)).1
  simpa [Pd.dbSet, Pd.dbContains] using h

namespace Tasks

theorem completionUpdate_running (t : TaskRec) (h : String) (oc : Outcome) (nowMs : Nat) :
    (completionUpdate t h oc nowMs).running = t.running.erase h := by
  cases oc <;> simp only [completionUpdate] <;> split <;> simp_all

end Tasks

/-- C6: for a plan task carrying `if_previous_command = i`, the interpreter
skips it whenever (a) `i` is not an earlier index with a recorded result,
(b) `if_previous_command_result` fails its predicate on the recorded result
— where the source's failure test agrees with the claim's readings
`all_success ⇔ no errors`, `any_success ⇔ ≥1 success`, `all_error ⇔ no
success`, `any_error ⇔ ≥1 error` — or (c) `if_previous_output_contains`
does not occur in the newline-joined outputs of the result's success and
error entries; and whenever the condition check fails, the loop iteration
marks the task `skipped`, records no result, creates no sub-task, and
advances to the next sequence item. -/
theorem c6_condition_skip :
    (∀ (pt : Plan.PlanTask) (results : List (Nat × Plan.ResultRec)) (i tIdx : Nat),
        pt.ifPrevCommand = some i →
        (tIdx ≤ i ∨ Plan.lookupRes results i = none) →
        Plan.checkConditions pt results tIdx = false) ∧
    (∀ (pt : Plan.PlanTask) (results : List (Nat × Plan.ResultRec)) (i tIdx : Nat)
        (r : Plan.ResultRec) (cond : List Char),
        pt.ifPrevCommand = some i →
        Plan.lookupRes results i = some r →
        Plan.truthy pt.ifPrevCommandResult = some cond →
        Plan.condResultFails cond r = true →
        Plan.checkConditions pt results tIdx = false) ∧
    (∀ (pt : Plan.PlanTask) (results : List (Nat × Plan.ResultRec)) (i tIdx : Nat)
        (r : Plan.ResultRec) (sub : List Char),
        pt.ifPrevCommand = some i →
        Plan.lookupRes results i = some r →
        Plan.truthy pt.ifPrevOutputContains = some sub →
        Jp.containsSub sub (Plan.combinedOutput r) = false →
        Plan.checkConditions pt results tIdx = false) ∧
    (∀ r : Plan.ResultRec,
        (Plan.condResultFails "all_success".data r = true ↔ ¬ r.errors = []) ∧
        (Plan.condResultFails "any_success".data r = true ↔ r.success = []) ∧
        (Plan.condResultFails "all_error".data r = true ↔ ¬ r.success = []) ∧
        (Plan.condResultFails "any_error".data r = true ↔ r.errors = [])) ∧
    (∀ (pt : Plan.PlanTask) (tIdx : Nat) (st : Plan.PlanState)
        (execute : Plan.PlanState → Plan.ResultRec) (resolveJump : Nat → Nat),
        Plan.checkConditions pt st.results tIdx = false →
        Plan.planIter pt tIdx st execute resolveJump =
          { idx := st.idx + 1,
            results := st.results,
            statuses := Plan.setStatus (Plan.setStatus st.statuses tIdx "scheduled".data)
              tIdx "skipped".data,
            dispatched := st.dispatched }) := by
  refine ⟨?_, ?_, ?_, ?_, ?_⟩
  · intro pt results i tIdx hprev hcase
    simp only [Plan.checkConditions, hprev]
    rcases hcase with h | h
    · rw [if_pos h]
    · by_cases hle : tIdx ≤ i
      · rw [if_pos hle]
      · rw [if_neg hle, h]
  · intro pt results i tIdx r cond hprev hlook htr hfail
    simp only [Plan.checkConditions, hprev]
    by_cases hle : tIdx ≤ i
    · rw [if_pos hle]
    · rw [if_neg hle, hlook, htr]
      simp [hfail]
  · intro pt results i tIdx r sub hprev hlook htr hfail
    simp only [Plan.checkConditions, hprev]
    by_cases hle : tIdx ≤ i
    · rw [if_pos hle]
    · rw [if_neg hle, hlook, htr]
      simp [hfail]
  · intro r
    have e12 : ¬ ("all_success".data : List Char) = "any_success".data := by decide
    have e13 : ¬ ("all_success".data : List Char) = "all_error".data := by decide
    have e14 : ¬ ("all_success".data : List Char) = "any_error".data := by decide
    have e21 : ¬ ("any_success".data : List Char) = "all_success".data := by decide
    have e23 : ¬ ("any_success".data : List Char) = "all_error".data := by decide
    have e24 : ¬ ("any_success".data : List Char) = "any_error".data := by decide
    have e31 : ¬ ("all_error".data : List Char) = "all_success".data := by decide
    have e32 : ¬ ("all_error".data : List Char) = "any_success".data := by decide
    have e34 : ¬ ("all_error".data : List Char) = "any_error".data := by decide
    have e41 : ¬ ("any_error".data : List Char) = "all_success".data := by decide
    have e42 : ¬ ("any_error".data : List Char) = "any_success".data := by decide
    have e43 : ¬ ("any_error".data : List Char) = "all_error".data := by decide
    refine ⟨?_, ?_, ?_, ?_⟩ <;>
      simp [Plan.condResultFails, e12, e13, e14, e21, e23, e24, e31, e32, e34,
        e41, e42, e43, List.length_pos, List.length_eq_zero]
  · intro pt tIdx st execute resolveJump hfail
    simp [Plan.planIter, hfail]

/-- C6 witness: task 1 with `if_previous_command = 0` and
`if_previous_command_result = "all_success"` is skipped when task 0's
recorded result has an error. -/
theorem c6_condition_skip_witness :
    Plan.checkConditions ⟨some 0, some "all_success".data, none, none, none⟩
        [(0, ⟨[], [some "boom".data]⟩)] 1 = false ∧
    Plan.planIter ⟨some 0, some "all_success".data, none, none, none⟩ 1
        ⟨5, [(0, ⟨[], [some "boom".data]⟩)], [], []⟩ (fun _ => ⟨[], []⟩) (fun j => j) =
      ⟨6, [(0, ⟨[], [some "boom".data]⟩)],
        Plan.setStatus (Plan.setStatus [] 1 "scheduled".data) 1 "skipped".data, []⟩ := by
  have hc : Plan.checkConditions ⟨some 0, some "all_success".data, none, none, none⟩
      [(0, ⟨[], [some "boom".data]⟩)] 1 = false :=
    c6_condition_skip.2.1 ⟨some 0, some "all_success".data, none, none, none⟩
      [(0, ⟨[], [some "boom".data]⟩)] 0 1 ⟨[], [some "boom".data]⟩ "all_success".data
      rfl rfl rfl (by decide)
  refine ⟨hc, ?_⟩
  exact c6_condition_skip.2.2.2.2 ⟨some 0, some "all_success".data, none, none, none⟩ 1
    ⟨5, [(0, ⟨[], [some "boom".data]⟩)], [], []⟩ (fun _ => ⟨[], []⟩) (fun j => j) hc

/-- `Char.ofNat` round-trip on valid code points. -/
theorem charToNatOfNat (n : Nat) (h : n.isValidChar) : (Char.ofNat n).toNat = n := by
  have h2 : n < 1114112 := by
    rcases h with h | ⟨h1, h2⟩ <;> omega
  simp [Char.ofNat, h, Char.toNat, Char.ofNatAux, UInt32.toNat]

namespace Wol

/-- ASCII lowering preserves hex-digit values. -/
theorem hexDigitVal_lowerChar (c : Char) (h : (hexDigitVal c).isSome) :
    hexDigitVal (lowerChar c) = hexDigitVal c := by
  unfold lowerChar
  by_cases hu : 65 ≤ c.toNat ∧ c.toNat ≤ 90
  · rw [if_pos hu]
    by_cases h3 : 65 ≤ c.toNat ∧ c.toNat ≤ 70
    · have hv : (Char.ofNat (c.toNat + 32)).toNat = c.toNat + 32 :=
        charToNatOfNat _ (Or.inl (by omega))
      have harith : c.toNat + 32 - 87 = c.toNat - 55 := by omega
      unfold hexDigitVal
      rw [hv, if_neg (by omega), if_pos (by omega), if_neg (by omega), if_neg (by omega),
        if_pos (by omega), harith]
    · exfalso
      unfold hexDigitVal at h
      rw [if_neg (by omega), if_neg (by omega), if_neg (by omega)] at h
      simp at h
  · rw [if_neg hu]

theorem fromhex_append (a b : List Char) (x y : List Nat)
    (ha : fromhex a = some x) (hb : fromhex b = some y) :
    fromhex (a ++ b) = some (x ++ y) := by
  match a with
  | [] =>
    simp only [fromhex, Option.some.injEq] at ha
    subst ha
    simpa using hb
  | [c] => simp [fromhex] at ha
  | c1 :: c2 :: rest =>
    rw [List.cons_append, List.cons_append]
    simp only [fromhex] at ha ⊢
    cases h1 : hexDigitVal c1 with
    | none => rw [h1] at ha; simp at ha
    | some v1 =>
      cases h2 : hexDigitVal c2 with
      | none => rw [h1, h2] at ha; simp at ha
      | some v2 =>
        cases h3 : fromhex rest with
        | none => rw [h1, h2, h3] at ha; simp at ha
        | some bs =>
          rw [h1, h2, h3] at ha
          simp only [Option.some.injEq] at ha
          subst ha
          rw [fromhex_append rest b bs y h3 hb]
          simp

theorem fromhex_all_hex (m : List Char) (hhex : ∀ c ∈ m, (hexDigitVal c).isSome)
    (heven : m.length % 2 = 0) :
    ∃ bs, fromhex m = some bs ∧ bs.length = m.length / 2 := by
  match m with
  | [] => exact ⟨[], rfl, rfl⟩
  | [c] => simp at heven
  | c1 :: c2 :: rest =>
    obtain ⟨v1, hv1⟩ := Option.isSome_iff_exists.mp (hhex c1 (by simp))
    obtain ⟨v2, hv2⟩ := Option.isSome_iff_exists.mp (hhex c2 (by simp))
    obtain ⟨bs, hbs, hlen⟩ := fromhex_all_hex rest
      (fun c hc => hhex c (by simp [hc]))
      (by simp only [List.length_cons] at heven; omega)
    refine ⟨(v1 * 16 + v2) :: bs, ?_, ?_⟩
    · simp [fromhex, hv1, hv2, hbs]
    · simp only [List.length_cons, hlen]
      omega

theorem fromhex_flatten_replicate (k : Nat) (m : List Char) (bs : List Nat)
    (h : fromhex m = some bs) :
    fromhex (List.replicate k m).flatten = some (List.replicate k bs).flatten := by
  induction k with
  | zero => rfl
  | succ n ih =>
    simp only [List.replicate_succ, List.flatten_cons]
    exact fromhex_append m (List.replicate n m).flatten bs (List.replicate n bs).flatten h ih

end Wol

/-- C7: for a MAC of 12 hexadecimal digits optionally interleaved with `:` or
`-` separators, `send_wol` builds a packet of exactly 102 bytes — six `0xFF`
bytes followed by the 6-byte binary MAC repeated sixteen times (separators
stripped, case-insensitively) — and sends it as a single UDP datagram to
`255.255.255.255` port 9 with `SO_BROADCAST` enabled. -/
theorem c7_wol_magic_packet (mac : List Char)
    (hhex : ∀ c ∈ mac, c = ':' ∨ c = '-' ∨ (Wol.hexDigitVal c).isSome)
    (hlen : (Wol.stripSeps mac).length = 12) :
    ∃ macBytes : List Nat,
      Wol.fromhex ((Wol.stripSeps mac).map Wol.lowerChar) = some macBytes ∧
      macBytes.length = 6 ∧
      Wol.sendWol mac =
        some ⟨List.replicate 6 255 ++ (List.replicate 16 macBytes).flatten,
          "255.255.255.255", 9, true⟩ ∧
      (List.replicate 6 255 ++ (List.replicate 16 macBytes).flatten).length = 102 ∧
      (List.replicate 6 255 ++ (List.replicate 16 macBytes).flatten).take 6 =
        List.replicate 6 255 ∧
      (List.replicate 6 255 ++ (List.replicate 16 macBytes).flatten).drop 6 =
        (List.replicate 16 macBytes).flatten := by
  have hstriphex : ∀ c ∈ Wol.stripSeps mac, (Wol.hexDigitVal c).isSome := by
    intro c hc
    simp only [Wol.stripSeps, List.mem_filter, decide_eq_true_eq] at hc
    rcases hhex c hc.1 with h | h | h
    · exact absurd h hc.2.1
    · exact absurd h hc.2.2
    · exact h
  have hlowhex : ∀ c ∈ (Wol.stripSeps mac).map Wol.lowerChar, (Wol.hexDigitVal c).isSome := by
    intro c hc
    obtain ⟨c0, hc0, rfl⟩ := List.mem_map.mp hc
    rw [Wol.hexDigitVal_lowerChar c0 (hstriphex c0 hc0)]
    exact hstriphex c0 hc0
  have hlowlen : ((Wol.stripSeps mac).map Wol.lowerChar).length = 12 := by
    simpa using hlen
  obtain ⟨macBytes, hmb, hmblen⟩ :=
    Wol.fromhex_all_hex _ hlowhex (by rw [hlowlen])
  rw [hlowlen] at hmblen
  have hmb6 : macBytes.length = 6 := hmblen
  have hff : Wol.fromhex (List.replicate 6 ("FF".data)).flatten =
      some (List.replicate 6 255) := by decide
  have hrep := Wol.fromhex_flatten_replicate 16 _ macBytes hmb
  have hsend : Wol.sendWol mac =
      some ⟨List.replicate 6 255 ++ (List.replicate 16 macBytes).flatten,
        "255.255.255.255", 9, true⟩ := by
    have hall := Wol.fromhex_append _ _ _ _ hff hrep
    unfold Wol.sendWol
    simp only [hall]
  refine ⟨macBytes, hmb, hmb6, hsend, ?_, ?_, ?_⟩
  · simp [List.length_flatten, List.map_replicate, hmb6, List.sum_replicate]
  · have := List.take_left (List.replicate 6 (255 : Nat))
      ((List.replicate 16 macBytes).flatten)
    simpa using this
  · have := List.drop_left (List.replicate 6 (255 : Nat))
      ((List.replicate 16 macBytes).flatten)
    simpa using this

/-- C7 witness at the spec's own example MAC `11:22:33:44:55:66`. -/
theorem c7_wol_magic_packet_witness :
    Wol.sendWol ("11:22:33:44:55:66".data) =
      some ⟨List.replicate 6 255 ++
        (List.replicate 16 [0x11, 0x22, 0x33, 0x44, 0x55, 0x66]).flatten,
        "255.255.255.255", 9, true⟩ := by
  obtain ⟨mb, hmb, _, hsend, _⟩ :=
    c7_wol_magic_packet ("11:22:33:44:55:66".data) (by decide) (by decide)
  have : mb = [0x11, 0x22, 0x33, 0x44, 0x55, 0x66] := by
    have h2 : Wol.fromhex ((Wol.stripSeps ("11:22:33:44:55:66".data)).map Wol.lowerChar) =
        some [0x11, 0x22, 0x33, 0x44, 0x55, 0x66] := by decide
    rw [h2] at hmb
    exact (Option.some.inj hmb).symm
  rw [this] at hsend
  exact hsend


namespace Ws

theorem beVal_append_singleton (xs : List Nat) (b : Nat) :
    beVal (xs ++ [b]) = beVal xs * 256 + b := by
  simp [beVal, List.foldl_append]

theorem beBytes_length (w n : Nat) : (beBytes w n).length = w := by
  induction w generalizing n with
  | zero => rfl
  | succ w ih => simp [beBytes, ih]

theorem beVal_beBytes (w n : Nat) (h : n < 256 ^ w) : beVal (beBytes w n) = n := by
  induction w generalizing n with
  | zero =>
    interval_cases n
    rfl
  | succ w ih =>
    have hd : n / 256 < 256 ^ w := by
      rw [Nat.div_lt_iff_lt_mul (by norm_num)]
      calc n < 256 ^ (w + 1) := h
        _ = 256 ^ w * 256 := by ring
    rw [beBytes, beVal_append_singleton, ih (n / 256) hd]
    omega

theorem lor128 (a : Nat) (h : a < 128) : 128 ||| a = 128 + a := by
  interval_cases a <;> rfl

theorem finBit (op : Nat) (h : op ≤ 15) : ((128 + op) >>> 7) &&& 1 = 1 := by
  interval_cases op <;> rfl

theorem opcodeBits (op : Nat) (h : op ≤ 15) : (128 + op) &&& 15 = op := by
  interval_cases op <;> rfl

theorem smallShift (n : Nat) (h : n < 128) : (n >>> 7) &&& 1 = 0 := by
  have h2 : n >>> 7 = 0 := by
    rw [Nat.shiftRight_eq_div_pow]
    omega
  rw [h2]
  rfl

theorem smallAnd (n : Nat) (h : n < 128) : n &&& 127 = n := by
  have := Nat.and_pow_two_sub_one_eq_mod n 7
  norm_num at this
  omega

theorem maskedFin (a : Nat) (h : a < 128) : ((128 + a) >>> 7) &&& 1 = 1 := by
  have h1 : (128 + a) >>> 7 = 1 := by
    rw [Nat.shiftRight_eq_div_pow]
    omega
  rw [h1]
  rfl

theorem maskedLen (a : Nat) (h : a < 128) : (128 + a) &&& 127 = a := by
  have := Nat.and_pow_two_sub_one_eq_mod (128 + a) 7
  norm_num at this
  omega

theorem maskFrom_length (key : List Nat) (i : Nat) (p : List Nat) :
    (maskFrom key i p).length = p.length := by
  induction p generalizing i with
  | nil => rfl
  | cons b bs ih => simp [maskFrom, ih]

theorem unmaskFrom_maskFrom (key : List Nat) (hk : key.length = 4) (p : List Nat) (i : Nat) :
    unmaskFrom key i (maskFrom key i p) = some p := by
  induction p generalizing i with
  | nil => rfl
  | cons b bs ih =>
    have hlt : i % 4 < key.length := by
      rw [hk]
      exact Nat.mod_lt _ (by norm_num)
    have hsome : key[i % 4]? = some (key.getD (i % 4) 0) := by
      rw [List.getElem?_eq_getElem hlt, List.getD_eq_getElem key 0 hlt]
    rw [maskFrom, unmaskFrom, hsome, ih (i + 1)]
    simp [Nat.xor_cancel_right]

theorem rt_small (op : Nat) (payload : List Nat) (hop : op ≤ 15)
    (h126 : payload.length < 126) :
    recvFrame (sendFrame op payload) = some (1, op, payload) := by
  have hb1 : 128 ||| op = 128 + op := lor128 op (by omega)
  have hfin : ((128 + op) >>> 7) &&& 1 = 1 := finBit op hop
  have hopc : (128 + op) &&& 15 = op := opcodeBits op hop
  have hm : (payload.length >>> 7) &&& 1 = 0 := smallShift _ (by omega)
  have hl : payload.length &&& 127 = payload.length := smallAnd _ (by omega)
  simp only [sendFrame, h126, if_true, List.cons_append, List.nil_append,
    recvFrame, hb1, hfin, hopc, hm, hl]
  rw [if_neg (by omega), if_neg (by omega)]
  simp

end Ws

namespace Ws

theorem rt_mid (op : Nat) (payload : List Nat) (hop : op ≤ 15)
    (h126 : ¬ payload.length < 126) (h65536 : payload.length < 65536) :
    recvFrame (sendFrame op payload) = some (1, op, payload) := by
  have hb1 : 128 ||| op = 128 + op := lor128 op (by omega)
  have hfin : ((128 + op) >>> 7) &&& 1 = 1 := finBit op hop
  have hopc : (128 + op) &&& 15 = op := opcodeBits op hop
  have hval : beVal (beBytes 2 payload.length) = payload.length :=
    beVal_beBytes 2 _ (by norm_num; omega)
  have hblen : (beBytes 2 payload.length).length = 2 := beBytes_length 2 _
  have hm : ¬ ((((126:Nat)) >>> 7) % 2 = 1) := by decide
  simp only [sendFrame, h126, if_false, h65536, if_true, List.cons_append,
    List.nil_append, List.append_assoc, recvFrame, hb1, hfin, hopc]
  have h127 : ((126:Nat)) &&& 127 = 126 := by decide
  simp [readN, hm, hval, hblen, h127]

end Ws

namespace Ws

theorem rt_big (op : Nat) (payload : List Nat) (hop : op ≤ 15)
    (h65536 : ¬ payload.length < 65536) (h64 : payload.length < 2 ^ 64) :
    recvFrame (sendFrame op payload) = some (1, op, payload) := by
  have hb1 : 128 ||| op = 128 + op := lor128 op (by omega)
  have hfin : ((128 + op) >>> 7) &&& 1 = 1 := finBit op hop
  have hopc : (128 + op) &&& 15 = op := opcodeBits op hop
  have hval : beVal (beBytes 8 payload.length) = payload.length :=
    beVal_beBytes 8 _ (by norm_num at h64 ⊢; omega)
  have hblen : (beBytes 8 payload.length).length = 8 := beBytes_length 8 _
  have h126 : ¬ payload.length < 126 := by omega
  have hm : ¬ ((((127:Nat)) >>> 7) % 2 = 1) := by decide
  have h127a : ((127:Nat)) &&& 127 = 127 := by decide
  simp only [sendFrame, h126, if_false, h65536, List.cons_append,
    List.nil_append, List.append_assoc, recvFrame, hb1, hfin, hopc]
  simp [readN, hm, hval, hblen, h127a]

theorem rt_masked_small (op : Nat) (key payload : List Nat) (hop : op ≤ 15)
    (hk : key.length = 4) (h126 : payload.length < 126) :
    recvFrame (clientFrame op key payload) = some (1, op, payload) := by
  have hb1 : 128 ||| op = 128 + op := lor128 op (by omega)
  have hfin : ((128 + op) >>> 7) &&& 1 = 1 := finBit op hop
  have hopc : (128 + op) &&& 15 = op := opcodeBits op hop
  have hb2 : 128 ||| payload.length = 128 + payload.length := lor128 _ (by omega)
  have hmaskbit : (((128 + payload.length) >>> 7) &&& 1) = 1 := maskedFin _ (by omega)
  have hlenbits : (128 + payload.length) &&& 127 = payload.length := maskedLen _ (by omega)
  have hkne : ¬ key = [] := by
    intro h
    rw [h] at hk
    simp at hk
  have htake : (key ++ maskFrom key 0 payload).take 4 = key := by
    have := List.take_left key (maskFrom key 0 payload)
    rwa [hk] at this
  have hdrop : (key ++ maskFrom key 0 payload).drop 4 = maskFrom key 0 payload := by
    have := List.drop_left key (maskFrom key 0 payload)
    rwa [hk] at this
  have hmlen : (maskFrom key 0 payload).length = payload.length := maskFrom_length key 0 payload
  have hum : unmaskFrom key 0 (maskFrom key 0 payload) = some payload :=
    unmaskFrom_maskFrom key hk payload 0
  simp only [clientFrame, h126, if_true, List.cons_append, List.nil_append,
    List.append_assoc, recvFrame, hb1, hfin, hopc, hb2, hmaskbit, hlenbits]
  rw [if_neg (by omega), if_neg (by omega)]
  simp only [if_pos rfl]
  rw [htake, hdrop]
  rw [if_pos (by rw [hmlen]), List.take_of_length_le (by rw [hmlen])]
  simp [hum, hkne]

end Ws

namespace Ws

theorem rt_masked_mid (op : Nat) (key payload : List Nat) (hop : op ≤ 15)
    (hk : key.length = 4) (h126 : ¬ payload.length < 126) (h65536 : payload.length < 65536) :
    recvFrame (clientFrame op key payload) = some (1, op, payload) := by
  have hb1 : 128 ||| op = 128 + op := lor128 op (by omega)
  have hfin : ((128 + op) >>> 7) &&& 1 = 1 := finBit op hop
  have hopc : (128 + op) &&& 15 = op := opcodeBits op hop
  have hmk : ((128:Nat) ||| 126) = 254 := by decide
  have hmaskbit : ((((254:Nat)) >>> 7) &&& 1) = 1 := by decide
  have hlenbits : ((254:Nat)) &&& 127 = 126 := by decide
  have hval : beVal (beBytes 2 payload.length) = payload.length :=
    beVal_beBytes 2 _ (by norm_num; omega)
  have hblen : (beBytes 2 payload.length).length = 2 := beBytes_length 2 _
  have hkne : ¬ key = [] := by
    intro h
    rw [h] at hk
    simp at hk
  have htake2 : (beBytes 2 payload.length ++ (key ++ maskFrom key 0 payload)).take 2 =
      beBytes 2 payload.length := by
    have := List.take_left (beBytes 2 payload.length)
      (key ++ maskFrom key 0 payload)
    rwa [hblen] at this
  have hdrop2 : (beBytes 2 payload.length ++ (key ++ maskFrom key 0 payload)).drop 2 =
      key ++ maskFrom key 0 payload := by
    have := List.drop_left (beBytes 2 payload.length)
      (key ++ maskFrom key 0 payload)
    rwa [hblen] at this
  have htake : (key ++ maskFrom key 0 payload).take 4 = key := by
    have := List.take_left key (maskFrom key 0 payload)
    rwa [hk] at this
  have hdrop : (key ++ maskFrom key 0 payload).drop 4 = maskFrom key 0 payload := by
    have := List.drop_left key (maskFrom key 0 payload)
    rwa [hk] at this
  have hmlen : (maskFrom key 0 payload).length = payload.length := maskFrom_length key 0 payload
  have hum : unmaskFrom key 0 (maskFrom key 0 payload) = some payload :=
    unmaskFrom_maskFrom key hk payload 0
  simp only [clientFrame, h126, if_false, h65536, if_true, List.cons_append,
    List.nil_append, List.append_assoc, recvFrame, hb1, hfin, hopc, hmk, hmaskbit, hlenbits]
  have htl : List.take payload.length (maskFrom key 0 payload) = maskFrom key 0 payload := by
    rw [← hmlen]
    exact List.take_length _
  simp [readN, htake2, hdrop2, hval, hblen, htake, hdrop, hmlen, hum, hkne, htl]

theorem rt_masked_big (op : Nat) (key payload : List Nat) (hop : op ≤ 15)
    (hk : key.length = 4) (h65536 : ¬ payload.length < 65536) (h64 : payload.length < 2 ^ 64) :
    recvFrame (clientFrame op key payload) = some (1, op, payload) := by
  have hb1 : 128 ||| op = 128 + op := lor128 op (by omega)
  have hfin : ((128 + op) >>> 7) &&& 1 = 1 := finBit op hop
  have hopc : (128 + op) &&& 15 = op := opcodeBits op hop
  have h126 : ¬ payload.length < 126 := by omega
  have hmk : ((128:Nat) ||| 127) = 255 := by decide
  have hmaskbit : ((((255:Nat)) >>> 7) &&& 1) = 1 := by decide
  have hlenbits : ((255:Nat)) &&& 127 = 127 := by decide
  have hne126 : ¬ ((127:Nat) = 126) := by decide
  have hval : beVal (beBytes 8 payload.length) = payload.length :=
    beVal_beBytes 8 _ (by norm_num at h64 ⊢; omega)
  have hblen : (beBytes 8 payload.length).length = 8 := beBytes_length 8 _
  have hkne : ¬ key = [] := by
    intro h
    rw [h] at hk
    simp at hk
  have htake2 : (beBytes 8 payload.length ++ (key ++ maskFrom key 0 payload)).take 8 =
      beBytes 8 payload.length := by
    have := List.take_left (beBytes 8 payload.length)
      (key ++ maskFrom key 0 payload)
    rwa [hblen] at this
  have hdrop2 : (beBytes 8 payload.length ++ (key ++ maskFrom key 0 payload)).drop 8 =
      key ++ maskFrom key 0 payload := by
    have := List.drop_left (beBytes 8 payload.length)
      (key ++ maskFrom key 0 payload)
    rwa [hblen] at this
  have htake : (key ++ maskFrom key 0 payload).take 4 = key := by
    have := List.take_left key (maskFrom key 0 payload)
    rwa [hk] at this
  have hdrop : (key ++ maskFrom key 0 payload).drop 4 = maskFrom key 0 payload := by
    have := List.drop_left key (maskFrom key 0 payload)
    rwa [hk] at this
  have hmlen : (maskFrom key 0 payload).length = payload.length := maskFrom_length key 0 payload
  have hum : unmaskFrom key 0 (maskFrom key 0 payload) = some payload :=
    unmaskFrom_maskFrom key hk payload 0
  simp only [clientFrame, h126, if_false, h65536, List.cons_append,
    List.nil_append, List.append_assoc, recvFrame, hb1, hfin, hopc, hmk, hmaskbit, hlenbits]
  rw [if_neg hne126]
  have htl : List.take payload.length (maskFrom key 0 payload) = maskFrom key 0 payload := by
    rw [← hmlen]
    exact List.take_length _
  simp [readN, htake2, hdrop2, hval, hblen, htake, hdrop, hmlen, hum, hkne, htl]

end Ws

/-- C8: (a) decoding a server-encoded frame yields `fin = 1`, the same
opcode, and the same payload, for every 4-bit opcode and payload shorter
than `2^64` — covering all three length encodings (one byte below 126,
`126` plus 16-bit big-endian below 65536, `127` plus 64-bit big-endian
otherwise), where conjunct (c) pins the big-endian bytes as the inverse of
the big-endian value at the exact widths used; (b) decoding a well-formed
masked client frame recovers the original payload by XOR-ing each payload
byte with `mask_key[i % 4]`. -/
theorem c8_frame_codec :
    (∀ (opcode : Nat) (payload : List Nat), opcode ≤ 15 → payload.length < 2 ^ 64 →
        Ws.recvFrame (Ws.sendFrame opcode payload) = some (1, opcode, payload)) ∧
    (∀ (opcode : Nat) (key payload : List Nat), opcode ≤ 15 → key.length = 4 →
        payload.length < 2 ^ 64 →
        Ws.recvFrame (Ws.clientFrame opcode key payload) = some (1, opcode, payload)) ∧
    (∀ (w n : Nat), n < 256 ^ w →
        Ws.beVal (Ws.beBytes w n) = n ∧ (Ws.beBytes w n).length = w) := by
  refine ⟨?_, ?_, fun w n h => ⟨Ws.beVal_beBytes w n h, Ws.beBytes_length w n⟩⟩
  · intro op payload hop h64
    by_cases h126 : payload.length < 126
    · exact Ws.rt_small op payload hop h126
    · by_cases h65536 : payload.length < 65536
      · exact Ws.rt_mid op payload hop h126 h65536
      · exact Ws.rt_big op payload hop h65536 h64
  · intro op key payload hop hk h64
    by_cases h126 : payload.length < 126
    · exact Ws.rt_masked_small op key payload hop hk h126
    · by_cases h65536 : payload.length < 65536
      · exact Ws.rt_masked_mid op key payload hop hk h126 h65536
      · exact Ws.rt_masked_big op key payload hop hk h65536 h64

/-- C8 witness: a small binary server frame round-trips, and a masked
client text frame is unmasked back to its payload. -/
theorem c8_frame_codec_witness :
    Ws.recvFrame (Ws.sendFrame 2 [10, 20, 30]) = some (1, 2, [10, 20, 30]) ∧
    Ws.recvFrame (Ws.clientFrame 1 [7, 11, 13, 17] [100, 200]) =
      some (1, 1, [100, 200]) := by
  constructor
  · exact c8_frame_codec.1 2 [10, 20, 30] (by decide) (by decide)
  · exact c8_frame_codec.2.1 1 [7, 11, 13, 17] [100, 200] (by decide) (by decide) (by decide)

namespace Tok

theorem b64CharVal_b64Char (i : Nat) (h : i < 64) : b64CharVal (b64Char i) = some i := by
  interval_cases i <;> rfl

theorem b64Char_ne_61 (i : Nat) (h : i < 64) : ¬ b64Char i = 61 := by
  interval_cases i <;> decide

theorem b64_roundtrip (bs : List Nat) (h : ∀ b ∈ bs, b < 256) :
    b64Decode (b64Encode bs) = some bs := by
  match bs with
  | [] => rfl
  | [a] =>
    have ha : a < 256 := h a (by simp)
    simp only [b64Encode, b64Decode]
    rw [if_pos (by simp)]
    rw [b64CharVal_b64Char _ (by omega), b64CharVal_b64Char _ (by omega)]
    simp only [Option.some.injEq, List.cons.injEq, and_true]
    omega
  | [a, b] =>
    have ha : a < 256 := h a (by simp)
    have hb : b < 256 := h b (by simp)
    simp only [b64Encode, b64Decode]
    rw [if_neg (by
      intro hcon
      exact b64Char_ne_61 _ (by omega) hcon.1)]
    rw [if_pos (by simp)]
    rw [b64CharVal_b64Char _ (by omega), b64CharVal_b64Char _ (by omega),
      b64CharVal_b64Char _ (by omega)]
    simp only [Option.some.injEq, List.cons.injEq, and_true]
    omega
  | a :: b :: c :: rest =>
    have ha : a < 256 := h a (by simp)
    have hb : b < 256 := h b (by simp)
    have hc : c < 256 := h c (by simp)
    have ih := b64_roundtrip rest (fun x hx => h x (by simp [hx]))
    simp only [b64Encode, b64Decode]
    rw [if_neg (by
      intro hcon
      exact b64Char_ne_61 _ (by omega) hcon.1)]
    rw [if_neg (by
      intro hcon
      exact b64Char_ne_61 _ (by omega) hcon.1)]
    rw [b64CharVal_b64Char _ (by omega), b64CharVal_b64Char _ (by omega),
      b64CharVal_b64Char _ (by omega), b64CharVal_b64Char _ (by omega), ih]
    simp only [Option.some.injEq, List.cons_append, List.nil_append, List.cons.injEq, and_true]
    omega

end Tok

namespace Tok

theorem decimalBytesF_congr (f1 f2 n : Nat) (h1 : n < f1) (h2 : n < f2) :
    decimalBytesF f1 n = decimalBytesF f2 n := by
  match f1, f2 with
  | g1 + 1, g2 + 1 =>
    simp only [decimalBytesF]
    by_cases hn : n < 10
    · simp [hn]
    · simp only [hn, if_false]
      rw [decimalBytesF_congr g1 g2 (n / 10) (by omega) (by omega)]
termination_by n
decreasing_by omega

theorem decimalBytes_unfold (n : Nat) :
    decimalBytes n = if n < 10 then [48 + n] else decimalBytes (n / 10) ++ [48 + n % 10] := by
  by_cases hn : n < 10
  · simp [decimalBytes, decimalBytesF, hn]
  · rw [if_neg hn]
    have hstep : decimalBytesF (n + 1) n = decimalBytesF n (n / 10) ++ [48 + n % 10] := by
      simp [decimalBytesF, hn]
    rw [decimalBytes, hstep,
      decimalBytesF_congr n (n / 10 + 1) (n / 10) (by omega) (by omega)]
    rfl

theorem decimalBytes_digits (n : Nat) : ∀ b ∈ decimalBytes n, 48 ≤ b ∧ b ≤ 57 := by
  intro b hb
  rw [decimalBytes_unfold] at hb
  by_cases hn : n < 10
  · simp [hn] at hb
    omega
  · simp only [hn, if_false, List.mem_append, List.mem_singleton] at hb
    rcases hb with hb | hb
    · exact decimalBytes_digits (n / 10) b hb
    · omega
termination_by n
decreasing_by omega

theorem decimalBytes_ne_nil (n : Nat) : ¬ decimalBytes n = [] := by
  rw [decimalBytes_unfold]
  by_cases hn : n < 10 <;> simp [hn]

theorem parseDecimalVal_decimalBytes (n : Nat) :
    parseDecimalVal (decimalBytes n) = n := by
  rw [decimalBytes_unfold]
  by_cases hn : n < 10
  · simp [hn, parseDecimalVal]
  · simp only [hn, if_false, parseDecimalVal, List.foldl_append]
    have ih := parseDecimalVal_decimalBytes (n / 10)
    simp only [parseDecimalVal] at ih
    rw [ih]
    simp
    omega
termination_by n
decreasing_by omega

theorem parseDecimal_decimalBytes (n : Nat) :
    parseDecimal (decimalBytes n) = some n := by
  rw [parseDecimal, if_pos, parseDecimalVal_decimalBytes]
  refine ⟨decimalBytes_ne_nil n, ?_⟩
  rw [List.all_eq_true]
  intro b hb
  have := decimalBytes_digits n b hb
  simp only [decide_eq_true_eq]
  omega

theorem splitColon_ne_nil (bs : List Nat) : ¬ splitColon bs = [] := by
  match bs with
  | [] => simp [splitColon]
  | b :: rest =>
    simp only [splitColon]
    by_cases hb : b = 58
    · simp [hb]
    · simp only [hb, if_false]
      cases hs : splitColon rest with
      | nil => exact absurd hs (splitColon_ne_nil rest)
      | cons h t => simp

theorem splitColon_no (a : List Nat) (h : ∀ b ∈ a, ¬ b = 58) : splitColon a = [a] := by
  induction a with
  | nil => rfl
  | cons c a' ih =>
    simp only [splitColon, h c (by simp), if_false]
    rw [ih (fun b hb => h b (by simp [hb]))]

theorem splitColon_append (a rest : List Nat) (h : ∀ b ∈ a, ¬ b = 58) :
    splitColon (a ++ 58 :: rest) = a :: splitColon rest := by
  induction a with
  | nil => simp [splitColon]
  | cons c a' ih =>
    simp only [List.cons_append, splitColon, h c (by simp), if_false, List.append_eq]
    rw [ih (fun b hb => h b (by simp [hb]))]

end Tok

namespace Tok

/-- A byte-string field fit for a token: bytes, none of them a colon. -/
@[reducible] def GoodField (f : List Nat) : Prop := ∀ b ∈ f, b < 256 ∧ ¬ b = 58

/-- Behaviour of `_verify_token` on a token freshly built by `issue_token`:
the base64, slicing, signature and field-parsing stages all succeed and
reduce verification to the nonce-table and expiry logic. -/
theorem verify_issued (H : List Nat → List Nat → List Nat) (secret : List Nat)
    (user task host nonce : List Nat) (now0 ttl now : Nat) (used : NonceTable)
    (hH : ∀ s m, (H s m).length = 32 ∧ ∀ b ∈ H s m, b < 256)
    (hu : GoodField user) (ht : GoodField task) (hh : GoodField host)
    (hn : GoodField nonce) :
    verifyToken H secret used now (issueToken H secret user task host now0 ttl nonce) =
      (let exp := now0 + ttl
       let pruned := used.filter (fun p => now < p.2)
       if now > exp then (.error "Token expired", pruned)
       else if pruned.any (fun p => p.1 = nonce) then (.error "Token replay detected", pruned)
       else (.ok (user, task, host), pruned ++ [(nonce, exp)])) := by
  have hmsgdef : (user ++ 58 :: task ++ 58 :: host ++ 58 ::
      decimalBytes (now0 + ttl) ++ 58 :: nonce).length =
      (user ++ 58 :: task ++ 58 :: host ++ 58 ::
      decimalBytes (now0 + ttl) ++ 58 :: nonce).length := rfl
  set msg := user ++ 58 :: task ++ 58 :: host ++ 58 ::
      decimalBytes (now0 + ttl) ++ 58 :: nonce with hmsg
  have hassoc : msg = user ++ 58 ::
      (task ++ 58 :: (host ++ 58 :: (decimalBytes (now0 + ttl) ++ 58 :: nonce))) := by
    rw [hmsg]
    simp [List.append_assoc]
  have hmsgbytes : ∀ b ∈ msg, b < 256 := by
    rw [hassoc]
    refine List.forall_mem_append.mpr ⟨fun b hb => (hu b hb).1, ?_⟩
    refine List.forall_mem_cons.mpr ⟨by omega, ?_⟩
    refine List.forall_mem_append.mpr ⟨fun b hb => (ht b hb).1, ?_⟩
    refine List.forall_mem_cons.mpr ⟨by omega, ?_⟩
    refine List.forall_mem_append.mpr ⟨fun b hb => (hh b hb).1, ?_⟩
    refine List.forall_mem_cons.mpr ⟨by omega, ?_⟩
    refine List.forall_mem_append.mpr ⟨fun b hb => ?_, ?_⟩
    · have := decimalBytes_digits (now0 + ttl) b hb
      omega
    · exact List.forall_mem_cons.mpr ⟨by omega, fun b hb => (hn b hb).1⟩
  have hsigbytes : ∀ b ∈ H secret msg, b < 256 := (hH secret msg).2
  have hallbytes : ∀ b ∈ msg ++ H secret msg, b < 256 := by
    intro b hb
    rcases List.mem_append.mp hb with hb | hb
    · exact hmsgbytes b hb
    · exact hsigbytes b hb
  have hdec : b64Decode (b64Encode (msg ++ H secret msg)) = some (msg ++ H secret msg) :=
    b64_roundtrip _ hallbytes
  have hlen : (msg ++ H secret msg).length - 32 = msg.length := by
    rw [List.length_append, (hH secret msg).1]
    omega
  have htake : (msg ++ H secret msg).take msg.length = msg := List.take_left msg _
  have hdrop : (msg ++ H secret msg).drop msg.length = H secret msg := List.drop_left msg _
  have hsplit : splitColon msg =
      [user, task, host, decimalBytes (now0 + ttl), nonce] := by
    rw [hassoc]
    rw [splitColon_append user _ (fun b hb => (hu b hb).2)]
    rw [splitColon_append task _ (fun b hb => (ht b hb).2)]
    rw [splitColon_append host _ (fun b hb => (hh b hb).2)]
    rw [splitColon_append (decimalBytes (now0 + ttl)) _
      (fun b hb => by have := decimalBytes_digits (now0 + ttl) b hb; omega)]
    rw [splitColon_no nonce (fun b hb => (hn b hb).2)]
  simp only [verifyToken, issueToken, ← hmsg, hdec, hlen, htake, hdrop, if_neg, hsplit]
  rw [if_neg (by simp)]
  simp only [List.getElem?_cons_zero, List.getElem?_cons_succ]
  rw [parseDecimal_decimalBytes]

end Tok

/-- C5 counterexample: at the instant `now = exp` the token is not yet
expired (`now > exp` is false), its nonce was already accepted and recorded,
yet verification succeeds — the pruning `e > now` drops the nonce one tick
before the expiry test `now > exp` rejects the token, so the claimed
replay failure for every reuse "before exp has passed" is false. -/
theorem c5_boundary_replay_counterexample :
    ¬ (5 > 0 + 5) ∧
    (([110], 0 + 5) ∈ ([(([110] : List Nat), 5)] : Tok.NonceTable)) ∧
    (Tok.verifyToken (fun _ _ => List.replicate 32 0) [] [([110], 5)] 5
        (Tok.issueToken (fun _ _ => List.replicate 32 0) [] [117] [116] [104] 0 5 [110])).1 =
      .ok ([117], [116], [104]) := by
  refine ⟨by omega, by simp, by rfl⟩

/-- C5 (amended): for a well-formed issued token with `exp = now0 + ttl`,
(a) re-presentation while the nonce is still remembered — which holds
strictly before `exp`, i.e. `now < exp` — fails with the replay error;
(b) presentation after `exp` (`now > exp`) fails with the expired error;
(c) an unexpired (`now ≤ exp`) token with a fresh nonce and valid HMAC is
accepted, its nonce is recorded until `exp`, and all nonces whose `exp` is
not in the future are dropped from the replay table.  At `now = exp`
exactly, the nonce has already been dropped while the token is still
unexpired, so a reuse at that instant is accepted (see the counterexample). -/
theorem c5_token_replay_expiry (H : List Nat → List Nat → List Nat) (secret : List Nat)
    (user task host nonce : List Nat) (now0 ttl now : Nat) (used : Tok.NonceTable)
    (hH : ∀ s m, (H s m).length = 32 ∧ ∀ b ∈ H s m, b < 256)
    (hu : Tok.GoodField user) (ht : Tok.GoodField task) (hh : Tok.GoodField host)
    (hn : Tok.GoodField nonce) :
    (((nonce, now0 + ttl) ∈ used ∧ now < now0 + ttl) →
      (Tok.verifyToken H secret used now
          (Tok.issueToken H secret user task host now0 ttl nonce)).1 =
        .error "Token replay detected") ∧
    (now > now0 + ttl →
      (Tok.verifyToken H secret used now
          (Tok.issueToken H secret user task host now0 ttl nonce)).1 =
        .error "Token expired") ∧
    ((∀ p ∈ used, ¬ p.1 = nonce) → now ≤ now0 + ttl →
      Tok.verifyToken H secret used now
          (Tok.issueToken H secret user task host now0 ttl nonce) =
        (.ok (user, task, host),
          used.filter (fun p => now < p.2) ++ [(nonce, now0 + ttl)])) := by
  have hv := Tok.verify_issued H secret user task host nonce now0 ttl now used hH hu ht hh hn
  refine ⟨?_, ?_, ?_⟩
  · intro ⟨hmem, hlt⟩
    rw [hv]
    simp only
    rw [if_neg (by omega)]
    rw [if_pos (by
      simp only [List.any_eq_true, decide_eq_true_eq]
      exact ⟨(nonce, now0 + ttl), List.mem_filter.mpr ⟨hmem, by simpa using hlt⟩, rfl⟩)]
  · intro hgt
    rw [hv]
    simp only
    rw [if_pos (by omega)]
  · intro hfresh hle
    rw [hv]
    simp only
    rw [if_neg (by omega)]
    rw [if_neg (by
      simp only [List.any_eq_true, decide_eq_true_eq, not_exists]
      intro p hp
      exact hfresh p (List.mem_filter.mp hp.1).1 hp.2)]

/-- C5 witness: replay strictly before `exp`, expiry after `exp`, and a
fresh accepted token whose nonce is recorded while an already-expired nonce
is dropped. -/
theorem c5_token_replay_expiry_witness :
    (Tok.verifyToken (fun _ _ => List.replicate 32 0) [] [([110], 5)] 4
        (Tok.issueToken (fun _ _ => List.replicate 32 0) [] [117] [116] [104] 0 5 [110])).1 =
      .error "Token replay detected" ∧
    (Tok.verifyToken (fun _ _ => List.replicate 32 0) [] [] 6
        (Tok.issueToken (fun _ _ => List.replicate 32 0) [] [117] [116] [104] 0 5 [110])).1 =
      .error "Token expired" ∧
    Tok.verifyToken (fun _ _ => List.replicate 32 0) [] [([99], 2), ([98], 9)] 3
        (Tok.issueToken (fun _ _ => List.replicate 32 0) [] [117] [116] [104] 0 5 [110]) =
      (.ok ([117], [116], [104]), [([98], 9), ([110], 5)]) := by
  have h := c5_token_replay_expiry (fun _ _ => List.replicate 32 0) [] [117] [116] [104] [110]
    0 5 4 [([110], 5)] (by
      intro s m
      refine ⟨rfl, ?_⟩
      intro b hb
      simp only [List.mem_replicate] at hb
      omega) (by decide) (by decide) (by decide)
    (by decide)
  have h6 := c5_token_replay_expiry (fun _ _ => List.replicate 32 0) [] [117] [116] [104] [110]
    0 5 6 [] (by
      intro s m
      refine ⟨rfl, ?_⟩
      intro b hb
      simp only [List.mem_replicate] at hb
      omega) (by decide) (by decide) (by decide) (by decide)
  have h3 := c5_token_replay_expiry (fun _ _ => List.replicate 32 0) [] [117] [116] [104] [110]
    0 5 3 [([99], 2), ([98], 9)] (by
      intro s m
      refine ⟨rfl, ?_⟩
      intro b hb
      simp only [List.mem_replicate] at hb
      omega) (by decide) (by decide)
    (by decide) (by decide)
  exact ⟨h.1 ⟨by simp, by omega⟩, h6.2.1 (by omega), h3.2.2 (by decide) (by omega)⟩

/-- C10: verifying a token freshly issued by `issue_token`, before its
expiry and with its nonce unused, returns exactly the `(user, task_id,
hostname)` triple it was issued for — guaranteed under the precondition
that the three fields (and the nonce, which `secrets.token_urlsafe` keeps
in `[A-Za-z0-9_-]`) contain no `:` byte, because the verifier splits the
signed message on `:` and assigns the first five fields positionally. -/
theorem c10_token_roundtrip (H : List Nat → List Nat → List Nat) (secret : List Nat)
    (user task host nonce : List Nat) (now0 ttl now : Nat) (used : Tok.NonceTable)
    (hH : ∀ s m, (H s m).length = 32 ∧ ∀ b ∈ H s m, b < 256)
    (hu : Tok.GoodField user) (ht : Tok.GoodField task) (hh : Tok.GoodField host)
    (hn : Tok.GoodField nonce)
    (hfresh : ∀ p ∈ used, ¬ p.1 = nonce) (hnow : now ≤ now0 + ttl) :
    (Tok.verifyToken H secret used now
        (Tok.issueToken H secret user task host now0 ttl nonce)).1 =
      .ok (user, task, host) := by
  rw [(c5_token_replay_expiry H secret user task host nonce now0 ttl now used
    hH hu ht hh hn).2.2 hfresh hnow]

/-- C10 witness. -/
theorem c10_token_roundtrip_witness :
    (Tok.verifyToken (fun _ _ => List.replicate 32 0) [] [([99], 2)] 3
        (Tok.issueToken (fun _ _ => List.replicate 32 0) [] [117] [116] [104] 0 5 [110])).1 =
      .ok ([117], [116], [104]) :=
  c10_token_roundtrip (fun _ _ => List.replicate 32 0) [] [117] [116] [104] [110] 0 5 3
    [([99], 2)]
    (by
      intro s m
      refine ⟨rfl, ?_⟩
      intro b hb
      simp only [List.mem_replicate] at hb
      omega)
    (by decide) (by decide) (by decide) (by decide) (by decide) (by omega)

namespace Jp

theorem hexDigitVal_hexDig (k : Nat) (h : k < 16) : Wol.hexDigitVal (hexDig k) = some k := by
  interval_cases k <;> decide

theorem parseHex4_digits (n : Nat) (h : n < 65536) (rest : List Char) :
    parseHex4 (hexDig (n / 4096 % 16) :: hexDig (n / 256 % 16) :: hexDig (n / 16 % 16) ::
      hexDig (n % 16) :: rest) = some (n, rest) := by
  simp only [parseHex4, hexDigitVal_hexDig _ (Nat.mod_lt _ (by norm_num)),
    Option.some.injEq, Prod.mk.injEq, and_true]
  omega

theorem char_toNat_valid (c : Char) :
    c.toNat < 55296 ∨ (57343 < c.toNat ∧ c.toNat < 1114112) :=
  c.valid

theorem escapeList_cons (c : Char) (cs : List Char) :
    escapeList (c :: cs) = escapeChar c ++ escapeList cs := by
  simp [escapeList]

theorem escapeChar_one (c : Char) : 1 ≤ (escapeChar c).length := by
  by_cases h1 : c = '"'
  · simp [escapeChar, h1]
  by_cases h2 : c = '\\'
  · simp [escapeChar, h1, h2]
  by_cases h3 : c.toNat = 8
  · simp [escapeChar, h1, h2, h3]
  by_cases h4 : c.toNat = 9
  · simp [escapeChar, h1, h2, h3, h4]
  by_cases h5 : c.toNat = 10
  · simp [escapeChar, h1, h2, h3, h4, h5]
  by_cases h6 : c.toNat = 12
  · simp [escapeChar, h1, h2, h3, h4, h5, h6]
  by_cases h7 : c.toNat = 13
  · simp [escapeChar, h1, h2, h3, h4, h5, h6, h7]
  by_cases h8 : c.toNat < 0x20
  · simp [escapeChar, h1, h2, h3, h4, h5, h6, h7, h8, uEscape]
  by_cases h9 : c.toNat < 0x7f
  · simp [escapeChar, h1, h2, h3, h4, h5, h6, h7, h8, h9]
  by_cases h10 : c.toNat < 0x10000
  · simp [escapeChar, h1, h2, h3, h4, h5, h6, h7, h8, h9, h10, uEscape]
  · simp [escapeChar, h1, h2, h3, h4, h5, h6, h7, h8, h9, h10, uEscape]

theorem escapeList_length (v : List Char) : v.length ≤ (escapeList v).length := by
  induction v with
  | nil => simp [escapeList]
  | cons c cs ih =>
    rw [escapeList_cons, List.length_append]
    have := escapeChar_one c
    simp only [List.length_cons]
    omega

theorem psb_esc (f : Nat) (e : Char) (d : Char) (X cs rest : List Char)
    (hcase : (e = '"' ∧ d = '"') ∨ (e = '\\' ∧ d = '\\') ∨ (e = '/' ∧ d = '/') ∨
      (e = 'b' ∧ d = Char.ofNat 8) ∨ (e = 'f' ∧ d = Char.ofNat 12) ∨
      (e = 'n' ∧ d = Char.ofNat 10) ∨ (e = 'r' ∧ d = Char.ofNat 13) ∨
      (e = 't' ∧ d = Char.ofNat 9))
    (hX : parseStringBody f X = some (cs, rest)) :
    parseStringBody (f + 1) ('\\' :: e :: X) = some (d :: cs, rest) := by
  rcases hcase with ⟨he, hd⟩ | ⟨he, hd⟩ | ⟨he, hd⟩ | ⟨he, hd⟩ | ⟨he, hd⟩ | ⟨he, hd⟩ |
    ⟨he, hd⟩ | ⟨he, hd⟩ <;> subst he <;> subst hd <;> simp [parseStringBody, hX]

theorem psb_raw (f : Nat) (c : Char) (X cs rest : List Char)
    (h1 : ¬ c = '"') (h2 : ¬ c = '\\') (h3 : ¬ c.toNat < 32)
    (hX : parseStringBody f X = some (cs, rest)) :
    parseStringBody (f + 1) (c :: X) = some (c :: cs, rest) := by
  simp [parseStringBody, h1, h2, h3, hX]

theorem psb_u (f : Nat) (d1 d2 d3 d4 : Char) (n : Nat) (X cs rest : List Char)
    (hd : parseHex4 (d1 :: d2 :: d3 :: d4 :: X) = some (n, X))
    (hs1 : ¬ (55296 ≤ n ∧ n ≤ 56319)) (hs2 : ¬ (56320 ≤ n ∧ n ≤ 57343))
    (hX : parseStringBody f X = some (cs, rest)) :
    parseStringBody (f + 1) ('\\' :: 'u' :: d1 :: d2 :: d3 :: d4 :: X) =
      some (Char.ofNat n :: cs, rest) := by
  simp [parseStringBody, hd, hs1, hs2, hX]

theorem psb_pair (f : Nat) (d1 d2 d3 d4 e1 e2 e3 e4 : Char) (hi lo : Nat)
    (X cs rest : List Char)
    (hd1 : parseHex4 (d1 :: d2 :: d3 :: d4 :: '\\' :: 'u' :: e1 :: e2 :: e3 :: e4 :: X) =
      some (hi, '\\' :: 'u' :: e1 :: e2 :: e3 :: e4 :: X))
    (hd2 : parseHex4 (e1 :: e2 :: e3 :: e4 :: X) = some (lo, X))
    (hhi : 55296 ≤ hi ∧ hi ≤ 56319) (hlo : 56320 ≤ lo ∧ lo ≤ 57343)
    (hX : parseStringBody f X = some (cs, rest)) :
    parseStringBody (f + 1)
        ('\\' :: 'u' :: d1 :: d2 :: d3 :: d4 :: '\\' :: 'u' :: e1 :: e2 :: e3 :: e4 :: X) =
      some (Char.ofNat (65536 + (hi - 55296) * 1024 + (lo - 56320)) :: cs, rest) := by
  simp [parseStringBody, hd1, hd2, hhi, hlo, hX]

set_option maxHeartbeats 1000000 in
/-- The string-escape round trip: the escaped body of a dumped string,
followed by the closing quote, parses back to exactly the original string,
consuming nothing further. -/
theorem parseStringBody_escape (v : List Char) : ∀ (rest : List Char) (fuel : Nat),
    v.length < fuel →
    parseStringBody fuel (escapeList v ++ '"' :: rest) = some (v, rest) := by
  induction v with
  | nil =>
    intro rest fuel hf
    match fuel, hf with
    | f + 1, _ => simp [escapeList, parseStringBody]
  | cons c cs ih =>
    intro rest fuel hf
    match fuel, hf with
    | f + 1, hf =>
    have hf' : cs.length < f := by
      simp only [List.length_cons] at hf
      omega
    have hX := ih rest f hf'
    rw [escapeList_cons, List.append_assoc]
    by_cases h1 : c = '"'
    · subst h1
      rw [show escapeChar '"' = ['\\', '"'] from rfl]
      exact psb_esc f '"' '"' _ cs rest (by simp) hX
    by_cases h2 : c = '\\'
    · subst h2
      rw [show escapeChar '\\' = ['\\', '\\'] from rfl]
      exact psb_esc f '\\' '\\' _ cs rest (by simp) hX
    by_cases h3 : c.toNat = 8
    · have hc : c = Char.ofNat 8 := by rw [← Char.ofNat_toNat c, h3]
      subst hc
      rw [show escapeChar (Char.ofNat 8) = ['\\', 'b'] from rfl]
      exact psb_esc f 'b' (Char.ofNat 8) _ cs rest (by simp) hX
    by_cases h4 : c.toNat = 9
    · have hc : c = Char.ofNat 9 := by rw [← Char.ofNat_toNat c, h4]
      subst hc
      rw [show escapeChar (Char.ofNat 9) = ['\\', 't'] from rfl]
      exact psb_esc f 't' (Char.ofNat 9) _ cs rest (by simp) hX
    by_cases h5 : c.toNat = 10
    · have hc : c = Char.ofNat 10 := by rw [← Char.ofNat_toNat c, h5]
      subst hc
      rw [show escapeChar (Char.ofNat 10) = ['\\', 'n'] from rfl]
      exact psb_esc f 'n' (Char.ofNat 10) _ cs rest (by simp) hX
    by_cases h6 : c.toNat = 12
    · have hc : c = Char.ofNat 12 := by rw [← Char.ofNat_toNat c, h6]
      subst hc
      rw [show escapeChar (Char.ofNat 12) = ['\\', 'f'] from rfl]
      exact psb_esc f 'f' (Char.ofNat 12) _ cs rest (by simp) hX
    by_cases h7 : c.toNat = 13
    · have hc : c = Char.ofNat 13 := by rw [← Char.ofNat_toNat c, h7]
      subst hc
      rw [show escapeChar (Char.ofNat 13) = ['\\', 'r'] from rfl]
      exact psb_esc f 'r' (Char.ofNat 13) _ cs rest (by simp) hX
    by_cases h8 : c.toNat < 0x20
    · have hesc : escapeChar c = uEscape c.toNat := by
        simp [escapeChar, h1, h2, h3, h4, h5, h6, h7, h8]
      rw [hesc]
      simp only [uEscape, List.cons_append, List.nil_append]
      have := psb_u f _ _ _ _ c.toNat (escapeList cs ++ '"' :: rest) cs rest
        (parseHex4_digits c.toNat (by omega) _) (by omega) (by omega) hX
      rw [this, Char.ofNat_toNat]
    by_cases h9 : c.toNat < 0x7f
    · have hesc : escapeChar c = [c] := by
        simp [escapeChar, h1, h2, h3, h4, h5, h6, h7, h8, h9]
      rw [hesc]
      exact psb_raw f c _ cs rest h1 h2 h8 hX
    by_cases h10 : c.toNat < 0x10000
    · have hesc : escapeChar c = uEscape c.toNat := by
        simp [escapeChar, h1, h2, h3, h4, h5, h6, h7, h8, h9, h10]
      have hvalid := char_toNat_valid c
      rw [hesc]
      simp only [uEscape, List.cons_append, List.nil_append]
      have := psb_u f _ _ _ _ c.toNat (escapeList cs ++ '"' :: rest) cs rest
        (parseHex4_digits c.toNat (by omega) _)
        (by rcases hvalid with h | h <;> omega) (by rcases hvalid with h | h <;> omega) hX
      rw [this, Char.ofNat_toNat]
    · have hesc : escapeChar c =
          uEscape (0xD800 + (c.toNat - 0x10000) / 0x400) ++
            uEscape (0xDC00 + (c.toNat - 0x10000) % 0x400) := by
        simp [escapeChar, h1, h2, h3, h4, h5, h6, h7, h8, h9, h10]
      have hvalid := char_toNat_valid c
      have hbig : c.toNat < 1114112 := by rcases hvalid with h | h <;> omega
      rw [hesc]
      simp only [uEscape, List.cons_append, List.nil_append, List.append_assoc]
      have := psb_pair f _ _ _ _ _ _ _ _
        (0xD800 + (c.toNat - 0x10000) / 0x400) (0xDC00 + (c.toNat - 0x10000) % 0x400)
        (escapeList cs ++ '"' :: rest) cs rest
        (parseHex4_digits _ (by omega) _) (parseHex4_digits _ (by omega) _)
        (by omega) (by omega) hX
      rw [this]
      have hvv : 65536 + (0xD800 + (c.toNat - 0x10000) / 0x400 - 55296) * 1024 +
          (0xDC00 + (c.toNat - 0x10000) % 0x400 - 56320) = c.toNat := by omega
      rw [hvv, Char.ofNat_toNat]


/-- One JSON value at sufficient fuel: a dumped string is a single string
token, whether or not the non-standard constants are accepted. -/
theorem parseValue_dumps (ac : Bool) (v : List Char) (fuel : Nat) (h : v.length + 1 < fuel) :
    parseValue ac fuel (dumpsString v) = some (JsonVal.str v, []) := by
  match fuel, h with
  | f + 1, h =>
    have hv : parseValue ac (f + 1) (dumpsString v) =
        (parseStringBody (f + 1) (escapeList v ++ ['"'])).map
          (fun p => (JsonVal.str p.1, p.2)) := rfl
    rw [hv]
    rw [show (escapeList v ++ ['"'] : List Char) = escapeList v ++ '"' :: [] from rfl]
    rw [parseStringBody_escape v [] (f + 1) (by omega)]
    rfl

/-- `json.loads(json.dumps(v))` for a string value: the dumped string parses
as exactly one JSON string token, equal to the original value. -/
theorem parseJson_dumpsString (v : List Char) :
    parseJson (dumpsString v) = some (JsonVal.str v) := by
  unfold parseJson
  rw [show skipWs (dumpsString v) = dumpsString v from by simp [dumpsString, skipWs]]
  rw [parseValue_dumps true v ((dumpsString v).length + 2) (by
    have := escapeList_length v
    simp only [dumpsString, List.length_cons, List.length_append]
    omega)]
  simp [skipWs]

/-- The same under the strict spec-side parser: the dumped string is a
single *strict* JSON string token. -/
theorem parseJsonStrict_dumpsString (v : List Char) :
    parseJsonStrict (dumpsString v) = some (JsonVal.str v) := by
  unfold parseJsonStrict
  rw [show skipWs (dumpsString v) = dumpsString v from by simp [dumpsString, skipWs]]
  rw [parseValue_dumps false v ((dumpsString v).length + 2) (by
    have := escapeList_length v
    simp only [dumpsString, List.length_cons, List.length_append]
    omega)]
  simp [skipWs]

/-- Every `.ok` return of `replace_json_placeholders` parses under
`json.loads`: the function's last step validates the result with
`json.loads` and raises otherwise.  (`json.loads`, not strict JSON — the
C1 counterexample below exhibits an `.ok` return that strict `JSON.parse`
rejects.) -/
theorem replaceJsonPlaceholders_ok_parses (floatDumps : List Char → Option (List Char))
    (jsonText hostname : List Char)
    (params : List (List Char × PyVal)) (out : List Char)
    (hok : replaceJsonPlaceholders floatDumps jsonText hostname params = .ok out) :
    (parseJson out).isSome := by
  unfold replaceJsonPlaceholders at hok
  cases hf : (allParams hostname params).foldlM
      (fun r kv => typePrefixes.foldlM (fun r' p => applyOne floatDumps kv.1 kv.2 r' p) r)
      jsonText with
  | error e =>
    rw [hf] at hok
    simp only [Bind.bind, Except.bind] at hok
    exact Except.noConfusion hok
  | ok r =>
    rw [hf] at hok
    simp only [Bind.bind, Except.bind] at hok
    cases hp : parseJson r with
    | none =>
      rw [hp] at hok
      exact Except.noConfusion hok
    | some v =>
      rw [hp] at hok
      simp only [pure, Except.pure] at hok
      injection hok with h
      rw [← h, hp]
      rfl

end Jp

/-- C1 counterexample: two invocations of JSON-mode payload substitution
that return without raising although the returned string does not parse
as JSON (strict JSON / the spec's `JSON.parse`, which has no
`NaN`/`Infinity` constants).  (1) With template `NaN` and no parameters,
no placeholder occurs, the final `json.loads('NaN')` validation succeeds
(CPython's scanner accepts the constant), and `NaN` is returned — yet
strict parsing rejects it.  (2) With template `<number_x>` and string
parameter `x = '1.0e999'`, the number branch takes the `float(value)`
path (`'.' in str(value)`), `float('1.0e999')` overflows to `inf`,
`json.dumps(inf)` is `Infinity` (here via the `floatDumps` instance,
which agrees with CPython at the one point used), the final `json.loads`
accepts it, and `Infinity` is returned — again rejected by strict
parsing.  The claim's "the returned string parses as JSON" therefore
fails; only the weaker "parses under `json.loads`" holds. -/
theorem c1_nonjson_ok_counterexample :
    (Jp.replaceJsonPlaceholders (fun _ => none) ("NaN".data) ("h".data) [] =
      .ok ("NaN".data)) ∧
    Jp.parseJsonStrict ("NaN".data) = none ∧
    (Jp.replaceJsonPlaceholders
        (fun s => if s = "1.0e999".data then some ("Infinity".data) else none)
        ("<number_x>".data) ("h".data) [("x".data, Jp.PyVal.str ("1.0e999".data))] =
      .ok ("Infinity".data)) ∧
    Jp.parseJsonStrict ("Infinity".data) = none :=
  ⟨rfl, rfl, rfl, rfl⟩

/-- C1, amended: (a) every invocation of JSON-mode payload substitution
that returns without raising yields a string that parses under Python's
`json.loads` — the validator the source actually runs, which beyond
strict JSON also accepts `NaN`/`Infinity`/`-Infinity` (strict JSON
validity fails exactly on those, see the counterexample); (b,c) a value
of type `string` is embedded as exactly one JSON string token — the
quoted, escaped dump parses back to precisely the original value under
both the strict and the `json.loads` parser, consuming nothing else — so
structural characters inside the value cannot alter the document's
structure; (d,e) on the spec's own injection example, template
`{"name": <string_name>}` with value `","x":"y`, the substituted payload
is `{"name": "\",\"x\":\"y"}` and parses (strictly) to an object with the
single key `name`. -/
theorem c1_json_mode_substitution :
    (∀ (floatDumps : List Char → Option (List Char)) (jsonText hostname : List Char)
        (params : List (List Char × Jp.PyVal)) (out : List Char),
        Jp.replaceJsonPlaceholders floatDumps jsonText hostname params = .ok out →
        (Jp.parseJson out).isSome) ∧
    (∀ (v rest : List Char) (fuel : Nat), v.length < fuel →
        Jp.parseStringBody fuel (Jp.escapeList v ++ '"' :: rest) = some (v, rest)) ∧
    (∀ v : List Char, Jp.parseJsonStrict (Jp.dumpsString v) = some (Jp.JsonVal.str v) ∧
        Jp.parseJson (Jp.dumpsString v) = some (Jp.JsonVal.str v)) ∧
    (Jp.replaceJsonPlaceholders (fun _ => none)
        ("\x7b\"name\": <string_name>\x7d".data) ("h".data)
        [("name".data, Jp.PyVal.str ("\",\"x\":\"y".data))] =
      .ok ("\x7b\"name\": \"\\\",\\\"x\\\":\\\"y\"\x7d".data)) ∧
    (Jp.parseJsonStrict ("\x7b\"name\": \"\\\",\\\"x\\\":\\\"y\"\x7d".data) =
      some (Jp.JsonVal.obj [("name".data, Jp.JsonVal.str ("\",\"x\":\"y".data))])) := by
  refine ⟨Jp.replaceJsonPlaceholders_ok_parses,
    fun v rest fuel h => Jp.parseStringBody_escape v rest fuel h,
    fun v => ⟨Jp.parseJsonStrict_dumpsString v, Jp.parseJson_dumpsString v⟩, ?_, ?_⟩
  · rfl
  · rfl

/-- C1 witness. -/
theorem c1_json_mode_substitution_witness :
    (Jp.parseJson ("\x7b\"name\": \"\\\",\\\"x\\\":\\\"y\"\x7d".data)).isSome ∧
    Jp.parseStringBody 3 (Jp.escapeList ("ab".data) ++ '"' :: []) =
      some ("ab".data, []) := by
  constructor
  · exact c1_json_mode_substitution.1 (fun _ => none)
      ("\x7b\"name\": <string_name>\x7d".data) ("h".data)
      [("name".data, Jp.PyVal.str ("\",\"x\":\"y".data))] _
      c1_json_mode_substitution.2.2.2.1
  · exact c1_json_mode_substitution.2.1 ("ab".data) [] 3 (by decide)
